import Mathlib

/-!
TaskManagerUsingRaylib: the credential store and the task store

A shallow embedding of the functions of `main.c`, `next.c` and `app.c` that talk to the
embedded store, and the properties of them that the specification states.

Conventions of the embedding.

* A C string is the list of its bytes before the terminating NUL (`CStr`).
* A `char` buffer reached through a pointer is a map from offsets to bytes (`Mem`); a store
  to it is `poke`. What a function leaves untouched is stated as a frame property.
* The database is the contents of its two tables, the rows of each in rowid order, which is
  the order in which a scan of the table visits them. The five SQL statements of the source
  are given the meaning SQLite gives them on the schema of `createTableQuery` and
  `createTaskTableQuery`. The statements are fixed and the tables exist before any of the
  functions runs, so preparing a statement yields `SQLITE_OK`; storage faults (a full disk, a
  locked file) are outside the model. An inserted row gets the last rowid plus one, which is
  SQLite's rule while the last rowid is below `2 ^ 63 - 1` (`MAX_ROWID`); statements about
  the position or the id of an inserted task are made for ids that are C ints (`IdsInt`).
* `SHA256` is OpenSSL's and is a parameter: any function from strings to 32 bytes.
* The array `Task tasks[]` is a list of slots. A store outside the array, and a `strcpy` whose
  source does not fit its destination, have no defined result: `FetchTasks` is `none` there.
  Its theorems are stated for databases whose rows the struct `Task` can hold: titles
  shorter than `MAX_INPUT_LEN` (`TitlesFit`) and, where ids are compared, ids that are C
  ints (`IdsInt`). `AddTask` with a title that fits, `MarkTaskComplete` and `DeleteTask`
  keep `TitlesFit`.
* What raylib reports in one frame (mouse, backspace, the queue behind `GetCharPressed`) is a
  record (`Frame`). The `static` locals of `DrawDashboard` are a record passed in and
  returned. `strlen` scans at most `STRLEN_SCAN` bytes. A store of the input handlers past
  the end of a buffer is visible as a change of the memory behind the buffer.
-/

namespace TaskManager

/-! ## Constants and strings -/

/-- Bytes of a C string, terminator excluded. -/
abbrev CStr := List Nat

/-- Size of the input buffers and of `Task.title`: `#define MAX_INPUT_LEN 256`. -/
abbrev MAX_INPUT_LEN : Nat := 256

/-- Capacity of the task array: `#define MAX_TASKS 100`. -/
abbrev MAX_TASKS : Nat := 100

/-- Digest size in bytes, from `openssl/sha.h`. -/
abbrev SHA256_DIGEST_LENGTH : Nat := 32

/-- Memory behind a `char *`: offset to byte. -/
abbrev Mem := Nat → Nat

/-- The store `p[i] = v`. -/
def poke (m : Mem) (i v : Nat) : Mem := fun j => if j = i then v else m j

/-- The string a `char` array of `size` bytes holds: its bytes up to the first NUL. -/
def cstring (m : Mem) (size : Nat) : CStr :=
  ((List.range size).map m).takeWhile (fun c => decide (c ≠ 0))

/-- A 32-byte digest, `unsigned char hash[SHA256_DIGEST_LENGTH]`. -/
abbrev Digest := Fin SHA256_DIGEST_LENGTH → Fin 256

/-! ## HashPassword (main.c 247-255, next.c 205-213) -/

/-- The character `%x` prints for one nibble: `0`-`9`, then `a`-`f`. -/
def hexChar (d : Nat) : Nat := if d < 10 then 48 + d else 87 + d

/-- Characters `0`-`9` and `a`-`f`. -/
def isLowerHex (c : Nat) : Prop := (48 ≤ c ∧ c ≤ 57) ∨ (97 ≤ c ∧ c ≤ 102)

instance (c : Nat) : Decidable (isLowerHex c) := by unfold isLowerHex; infer_instance

/-- The call `sprintf(p, "%02x", b)` for an `unsigned char b`: two hex digits, high nibble
first, and the terminating NUL that `sprintf` appends. -/
def sprintf_02x (m : Mem) (p : Nat) (b : Fin 256) : Mem :=
  poke (poke (poke m p (hexChar (b.val / 16))) (p + 1) (hexChar (b.val % 16))) (p + 2) 0

/-- The buffer after the iterations `i = 0, ..., n - 1` of the loop
`for (int i = 0; i < SHA256_DIGEST_LENGTH; i++) sprintf(hashedPassword + (i * 2), "%02x", hash[i]);`. -/
def HashPassword.loop (hash : Digest) (hashedPassword : Mem) : Nat → Mem
  | 0 => hashedPassword
  | i + 1 =>
    if h : i < SHA256_DIGEST_LENGTH then
      sprintf_02x (HashPassword.loop hash hashedPassword i) (i * 2) (hash ⟨i, h⟩)
    else HashPassword.loop hash hashedPassword i

/-- `HashPassword(password, hashedPassword)`: the digest of the password, then the loop, then
`hashedPassword[SHA256_DIGEST_LENGTH * 2] = 0`. -/
def HashPassword (SHA256 : CStr → Digest) (password : CStr) (hashedPassword : Mem) : Mem :=
  let hash := SHA256 password
  poke (HashPassword.loop hash hashedPassword SHA256_DIGEST_LENGTH) (SHA256_DIGEST_LENGTH * 2) 0

/-- Contents of a local array before its first store. The value chosen does not matter to
`HashPassword`, see `HashPassword_cstring_init`. -/
def uninitialised : Mem := fun _ => 0

/-! ## The store -/

/-- A row of `users (id INTEGER PRIMARY KEY, username TEXT UNIQUE, password TEXT)`. -/
structure UserRow where
  id : Int
  username : CStr
  password : CStr
  deriving DecidableEq, Repr

/-- A row of `tasks (id INTEGER PRIMARY KEY, username TEXT, title TEXT, completed INTEGER)`. -/
structure TaskRow where
  id : Int
  username : CStr
  title : CStr
  completed : Int
  deriving DecidableEq, Repr

/-- The database file: both tables, rows in rowid order. -/
structure Db where
  users : List UserRow
  tasks : List TaskRow
  deriving DecidableEq, Repr

/-- Result codes of SQLite that the source tests or that a statement can yield here. -/
inductive Rc where
  | SQLITE_OK
  | SQLITE_ROW
  | SQLITE_DONE
  | SQLITE_CONSTRAINT
  deriving DecidableEq, Repr

/-- Preparing one of the fixed statements on a database whose tables exist. -/
def sqlite3_prepare_v2 (_db : Db) : Rc := Rc.SQLITE_OK

/-- Largest rowid of SQLite, `2 ^ 63 - 1`. -/
def MAX_ROWID : Int := 2 ^ 63 - 1

/-- The rowid SQLite gives a row inserted without one while the last rowid of the table is
below `MAX_ROWID`: 1 into an empty table, otherwise one more than the rowid of the last
row, so that the new row is last in scan order. When the last rowid is `MAX_ROWID`, SQLite
draws an unused rowid at random instead and the new row is not last; the embedding does
not represent that draw, and every statement about the id or the scan position of an
inserted task carries `IdsInt`, which keeps the last rowid below `2 ^ 31`. -/
def nextRowid (ids : List Int) : Int :=
  match ids.getLast? with
  | none => 1
  | some k => k + 1

/-- One `sqlite3_step` of `INSERT INTO users (username, password) VALUES (?, ?);`.
The `UNIQUE` constraint on `username` rejects a name some row already has. -/
def stepInsertUser (username password : CStr) (db : Db) : Rc × Db :=
  if db.users.any (fun r => decide (r.username = username)) then (Rc.SQLITE_CONSTRAINT, db)
  else (Rc.SQLITE_DONE,
    { db with users := db.users ++ [⟨nextRowid (db.users.map (·.id)), username, password⟩] })

/-- First `sqlite3_step` of `SELECT 1 FROM users WHERE username = ? AND password = ?;`. -/
def stepSelectUser (username password : CStr) (db : Db) : Rc × Db :=
  if db.users.any (fun r => decide (r.username = username ∧ r.password = password)) then
    (Rc.SQLITE_ROW, db)
  else (Rc.SQLITE_DONE, db)

/-! ## RegisterUser and LoginUser (main.c 204-245, next.c 162-203) -/

/-- `RegisterUser(username, password, db)`: the returned flag and the database afterwards. -/
def RegisterUser (SHA256 : CStr → Digest) (username password : CStr) (db : Db) : Bool × Db :=
  let hashedPassword := HashPassword SHA256 password uninitialised
  if sqlite3_prepare_v2 db ≠ Rc.SQLITE_OK then (false, db)
  else
    let r := stepInsertUser username (cstring hashedPassword (SHA256_DIGEST_LENGTH * 2 + 1)) db
    if r.1 ≠ Rc.SQLITE_DONE then (false, r.2)
    else (true, r.2)

/-- `LoginUser(username, password, db)`: the returned flag and the database afterwards. -/
def LoginUser (SHA256 : CStr → Digest) (username password : CStr) (db : Db) : Bool × Db :=
  let hashedPassword := HashPassword SHA256 password uninitialised
  if sqlite3_prepare_v2 db ≠ Rc.SQLITE_OK then (false, db)
  else
    let r := stepSelectUser username (cstring hashedPassword (SHA256_DIGEST_LENGTH * 2 + 1)) db
    let authenticated := decide (r.1 = Rc.SQLITE_ROW)
    (authenticated, r.2)

/-- The username occurs in the `users` table. -/
def userPresent (username : CStr) (db : Db) : Prop := ∃ r ∈ db.users, r.username = username

instance (username : CStr) (db : Db) : Decidable (userPresent username db) := by
  unfold userPresent; infer_instance

/-- The 64 characters `HashPassword` leaves in its buffer, as the string the store receives. -/
def hashString (SHA256 : CStr → Digest) (password : CStr) : CStr :=
  cstring (HashPassword SHA256 password uninitialised) (SHA256_DIGEST_LENGTH * 2 + 1)

/-- A toy digest for concrete evaluation: byte `i` is `(length + i) mod 256`. -/
def toyDigest : CStr → Digest := fun s i => ⟨(s.length + i.val) % 256, Nat.mod_lt _ (by decide)⟩

/-! ## The register button (main.c 92-107, next.c 83-98) -/

/-- Popup colours the handlers use. -/
inductive Color where
  | RED
  | GREEN
  deriving DecidableEq, Repr

/-- The variables of `main` that the register button handler assigns. -/
structure AuthUi where
  popupMessage : String
  popupColor : Color
  onRegistrationScreen : Bool
  showPopup : Bool
  deriving DecidableEq, Repr

/-- Body of `if (IsMouseButtonPressed(MOUSE_LEFT_BUTTON) && mouse.x > 300 && ...)` on the
registration screen, run when the click lands on the button. `registration_username` and
`registration_password` are the strings in the two input buffers. In next.c the assignment
`onRegistrationScreen = false` reads `currentScreen = SCREEN_LOGIN`. -/
def registerButtonClicked (SHA256 : CStr → Digest)
    (registration_username registration_password : CStr) (ui : AuthUi) (db : Db) : AuthUi × Db :=
  let r : AuthUi × Db :=
    if 0 < registration_username.length ∧ 0 < registration_password.length then
      let reg := RegisterUser SHA256 registration_username registration_password db
      if reg.1 then
        ({ ui with popupMessage := "Registration successful! Redirecting to login...",
                   popupColor := Color.GREEN, onRegistrationScreen := false }, reg.2)
      else
        ({ ui with popupMessage := "Username already exists or invalid input!",
                   popupColor := Color.RED }, reg.2)
    else
      ({ ui with popupMessage := "Please fill in all fields!", popupColor := Color.RED }, db)
  ({ r.1 with showPopup := true }, r.2)

/-! ## The task store (app.c 70-116) -/

/-- The struct `Task` of app.c; `title` is the string held in `char title[MAX_INPUT_LEN]`. -/
structure Task where
  id : Int
  title : CStr
  completed : Bool
  deriving DecidableEq, Repr

/-- The call `sqlite3_column_int`: the 64-bit column value cut to a C `int`. -/
def sqlite3_column_int (v : Int) : Int := (v + 2 ^ 31) % 2 ^ 32 - 2 ^ 31

/-- The call `strcpy(dst, src)` into an array of `size` bytes: the string and its terminator
must fit, otherwise the copy runs past the array and there is no result. -/
def strcpy (size : Nat) (src : CStr) : Option CStr :=
  if src.length < size then some src else none

/-- One `sqlite3_step` of `INSERT INTO tasks (username, title, completed) VALUES (?, ?, 0);`. -/
def stepInsertTask (username title : CStr) (db : Db) : Rc × Db :=
  (Rc.SQLITE_DONE,
    { db with tasks := db.tasks ++ [⟨nextRowid (db.tasks.map (·.id)), username, title, 0⟩] })

/-- Rows that successive steps of `SELECT id, title, completed FROM tasks WHERE username = ?;`
deliver, in order. -/
def selectTasks (username : CStr) (db : Db) : List TaskRow :=
  db.tasks.filter (fun r => decide (r.username = username))

/-- The rows of the `tasks` table that a user owns, in table order: the specification's
`owner_username == username`, written without reference to the statement of `FetchTasks`. -/
def ownedBy (username : CStr) : List TaskRow → List TaskRow
  | [] => []
  | row :: rest =>
    if row.username = username then row :: ownedBy username rest else ownedBy username rest

/-- One `sqlite3_step` of `UPDATE tasks SET completed = 1 WHERE id = ?;`. -/
def stepUpdateCompleted (taskId : Int) (db : Db) : Rc × Db :=
  (Rc.SQLITE_DONE,
    { db with tasks := db.tasks.map (fun r => if r.id = taskId then { r with completed := 1 } else r) })

/-- One `sqlite3_step` of `DELETE FROM tasks WHERE id = ?;`. -/
def stepDeleteTask (taskId : Int) (db : Db) : Rc × Db :=
  (Rc.SQLITE_DONE, { db with tasks := db.tasks.filter (fun r => decide (r.id ≠ taskId)) })

/-- `AddTask(username, title, db)`: the database afterwards. -/
def AddTask (username title : CStr) (db : Db) : Db :=
  (stepInsertTask username title db).2

/-- What the loop body of `FetchTasks` stores in `tasks[taskCount]` for a row whose title
fits. -/
def toTask (row : TaskRow) : Task :=
  ⟨sqlite3_column_int row.id, row.title, decide (sqlite3_column_int row.completed ≠ 0)⟩

/-- The loop `while (sqlite3_step(stmt) == SQLITE_ROW && taskCount < MAX_TASKS)` of
`FetchTasks` over the rows the statement still has to deliver. The result is `none` when a
store leaves the array `tasks` or a title does not fit `title[MAX_INPUT_LEN]`. -/
def FetchTasks.loop : List TaskRow → Nat → List Task → Option (Nat × List Task)
  | [], taskCount, tasks => some (taskCount, tasks)
  | row :: rest, taskCount, tasks =>
    if taskCount < MAX_TASKS then
      if taskCount < tasks.length then
        match strcpy MAX_INPUT_LEN row.title with
        | none => none
        | some title =>
          FetchTasks.loop rest (taskCount + 1)
            (tasks.set taskCount
              ⟨sqlite3_column_int row.id, title, decide (sqlite3_column_int row.completed ≠ 0)⟩)
      else none
    else some (taskCount, tasks)

/-- `FetchTasks(username, tasks, db)`: the returned count and the array afterwards. -/
def FetchTasks (username : CStr) (tasks : List Task) (db : Db) : Option (Nat × List Task) :=
  FetchTasks.loop (selectTasks username db) 0 tasks

/-- The tasks a caller of `FetchTasks` reads: slots `0 .. taskCount - 1` of the array. -/
def fetched (username : CStr) (tasks : List Task) (db : Db) : Option (List Task) :=
  (FetchTasks username tasks db).map (fun r => r.2.take r.1)

/-- `MarkTaskComplete(taskId, db)`: the database afterwards. -/
def MarkTaskComplete (taskId : Int) (db : Db) : Db :=
  (stepUpdateCompleted taskId db).2

/-- `DeleteTask(taskId, db)`: the database afterwards. -/
def DeleteTask (taskId : Int) (db : Db) : Db :=
  (stepDeleteTask taskId db).2

/-- Every stored title fits `Task.title`, terminator included. -/
def TitlesFit (db : Db) : Prop := ∀ r ∈ db.tasks, r.title.length < MAX_INPUT_LEN

instance (db : Db) : Decidable (TitlesFit db) := by unfold TitlesFit; infer_instance

/-- Every stored task id is a C `int`, the type of `Task.id` and of the `taskId` arguments. -/
def IdsInt (db : Db) : Prop := ∀ r ∈ db.tasks, -2 ^ 31 ≤ r.id ∧ r.id < 2 ^ 31

instance (db : Db) : Decidable (IdsInt db) := by unfold IdsInt; infer_instance

/-- The task rows are kept in strictly ascending rowid order, as a table scan visits them. -/
def IdsAscending (db : Db) : Prop := (db.tasks.map (·.id)).Pairwise (· < ·)

/-- A call of one of the three mutators of the task store. -/
inductive TaskOp where
  | add (username title : CStr)
  | complete (taskId : Int)
  | delete (taskId : Int)
  deriving DecidableEq, Repr

/-- The database after one call. -/
def TaskOp.apply (db : Db) : TaskOp → Db
  | .add username title => AddTask username title db
  | .complete taskId => MarkTaskComplete taskId db
  | .delete taskId => DeleteTask taskId db

/-- The database after a sequence of calls, first call first. -/
def runOps (ops : List TaskOp) (db : Db) : Db := ops.foldl TaskOp.apply db

/-- The title an `add` call inserts fits `Task.title`; the other calls insert none. -/
def TaskOp.fits : TaskOp → Bool
  | .add _ title => decide (title.length < MAX_INPUT_LEN)
  | .complete _ => true
  | .delete _ => true

/-- The titles the `add` calls of a sequence insert all fit `Task.title`. -/
def OpsFit (ops : List TaskOp) : Prop := ∀ op ∈ ops, op.fits = true

instance (ops : List TaskOp) : Decidable (OpsFit ops) := by unfold OpsFit; infer_instance

/-- The database with both tables empty. -/
def emptyDb : Db := ⟨[], []⟩

/-- A task array of `MAX_TASKS` zeroed slots, as `static Task tasks[MAX_TASKS]` starts. -/
def zeroTasks : List Task := List.replicate MAX_TASKS ⟨0, [], false⟩

/-! ## Sequences of authentication calls -/

/-- A call of `RegisterUser` or of `LoginUser`. -/
inductive AuthOp where
  | register (username password : CStr)
  | login (username password : CStr)
  deriving DecidableEq, Repr

/-- The database after one authentication call. -/
def AuthOp.apply (SHA256 : CStr → Digest) (db : Db) : AuthOp → Db
  | .register username password => (RegisterUser SHA256 username password db).2
  | .login username password => (LoginUser SHA256 username password db).2

/-- The database after a sequence of authentication calls, first call first. -/
def runAuth (SHA256 : CStr → Digest) (ops : List AuthOp) (db : Db) : Db :=
  ops.foldl (AuthOp.apply SHA256) db

/-! ## Input state of a frame -/

/-- What raylib reports during one frame: the mouse position, whether the left button was
pressed, whether backspace was pressed, and the queue of characters typed. -/
structure Frame where
  mouseX : Int
  mouseY : Int
  mousePressed : Bool
  backspacePressed : Bool
  chars : List Int
  deriving DecidableEq, Repr

/-- The call `GetCharPressed()`: the next queued character and the rest of the queue, 0 when
the queue is empty. -/
def GetCharPressed (queue : List Int) : Int × List Int :=
  match queue with
  | [] => (0, [])
  | key :: rest => (key, rest)

/-- How far `strlen` scans: twice the size of the largest `char` array of the program. -/
abbrev STRLEN_SCAN : Nat := 2 * MAX_INPUT_LEN

/-- The call `strlen(p)`: the offset of the first NUL from `p` on. The scan is cut at
`STRLEN_SCAN` bytes, which no string that starts in a buffer of the program reaches
before a store has left that buffer. -/
def strlen (m : Mem) : Nat := (cstring m STRLEN_SCAN).length

/-- The buffer of `size` bytes at `m` holds a string of `n` characters and is zero from its
terminator to its end. -/
def ZeroTerminated (m : Mem) (size n : Nat) : Prop :=
  n < size ∧ (∀ i, i < n → m i ≠ 0) ∧ ∀ i, n ≤ i → i < size → m i = 0

/-! ## HandleTaskInput (app.c 119-129) -/

/-- `HandleTaskInput(&focused, input, maxLength)`: the memory behind `input` afterwards. The
comparison `strlen(input) < maxLength - 1` is between a `size_t` and an `int`, so the right
side is taken modulo `2 ^ 64`. The second store evaluates `strlen(input)` again, after the
first store. -/
def HandleTaskInput (f : Frame) (focused : Bool) (input : Mem) (maxLength : Int) : Mem :=
  if focused = true ∧ f.backspacePressed = true ∧ strlen input > 0 then
    poke input (strlen input - 1) 0
  else if focused = true then
    let key := (GetCharPressed f.chars).1
    if key > 0 ∧ key < 128 ∧ (strlen input : Int) < (maxLength - 1) % 2 ^ 64 then
      let input1 := poke input (strlen input) key.toNat
      poke input1 (strlen input1 + 1) 0
    else input
  else input

/-! ## Text fields of main.c (61-89, 114-142) -/

/-- The loop `while (key > 0) { ...; key = GetCharPressed(); }` over the queued characters:
a character from 32 to 126 is stored at `len = strlen(field)` and a NUL at `len + 1`. -/
def fieldInput.loop : List Int → Mem → Mem
  | [], field => field
  | key :: queue, field =>
    if key > 0 then
      fieldInput.loop queue
        (if key ≥ 32 ∧ key ≤ 126 then
          let len := strlen field
          poke (poke field len key.toNat) (len + 1) 0
        else field)
    else field

/-- One frame of input handling for one text field of main.c, the same code for
`registration.username`, `registration.password`, `login.username` and `login.password`:
`if (focused && strlen(field) < MAX_INPUT_LEN - 1) { loop; backspace }`. -/
def fieldInput (f : Frame) (focused : Bool) (field : Mem) : Mem :=
  if focused = true ∧ strlen field < MAX_INPUT_LEN - 1 then
    let field1 := fieldInput.loop f.chars field
    if f.backspacePressed = true ∧ strlen field1 > 0 then
      poke field1 (strlen field1 - 1) 0
    else field1
  else field

/-! ## The dashboard (app.c 132-205) -/

/-- The string literal `"testuser"` of `DrawTasks`. -/
def testuser : CStr := [116, 101, 115, 116, 117, 115, 101, 114]

/-- The `static` locals of `DrawDashboard`. -/
structure DashboardState where
  tasks : List Task
  taskCount : Nat
  newTaskTitle : Mem
  taskInputFocused : Bool

/-- The loop `for (int i = 0; i < taskCount; i++)` of `DrawTasks` from index `i` on, at most
`fuel` iterations: the array, the local `taskCount` and the database afterwards. -/
def DrawTasks.loop (f : Frame) : Nat → Nat → List Task → Nat → Db → Option (List Task × Nat × Db)
  | 0, _, tasks, taskCount, db => some (tasks, taskCount, db)
  | fuel + 1, i, tasks, taskCount, db =>
    if i < taskCount then
      let completeHovered := f.mouseX > 600 ∧ f.mouseX < 660 ∧
        f.mouseY > 150 + (i : Int) * 50 ∧ f.mouseY < 190 + (i : Int) * 50
      let deleteHovered := f.mouseX > 670 ∧ f.mouseX < 730 ∧
        f.mouseY > 150 + (i : Int) * 50 ∧ f.mouseY < 190 + (i : Int) * 50
      do
        let afterComplete ←
          if completeHovered ∧ f.mousePressed = true then do
            let task ← tasks[i]?
            let db1 := MarkTaskComplete task.id db
            let r ← FetchTasks testuser tasks db1
            pure (r.2, r.1, db1)
          else pure (tasks, taskCount, db)
        let afterDelete ←
          if deleteHovered ∧ f.mousePressed = true then do
            let task ← afterComplete.1[i]?
            let db2 := DeleteTask task.id afterComplete.2.2
            let r ← FetchTasks testuser afterComplete.1 db2
            pure (r.2, r.1, db2)
          else pure afterComplete
        DrawTasks.loop f fuel (i + 1) afterDelete.1 afterDelete.2.1 afterDelete.2.2
    else some (tasks, taskCount, db)

/-- `DrawTasks(tasks, taskCount, db)`: the caller's array and the database afterwards.
`taskCount` is passed by value, so what the loop assigns to it is lost on return. The loop
variable stays below `max taskCount MAX_TASKS`, which bounds the iterations. -/
def DrawTasks (f : Frame) (tasks : List Task) (taskCount : Nat) (db : Db) :
    Option (List Task × Db) :=
  (DrawTasks.loop f (max taskCount MAX_TASKS) 0 tasks taskCount db).map
    (fun r => (r.1, r.2.2))

/-- The call `memset(newTaskTitle, 0, sizeof(newTaskTitle))`. -/
def memsetTitle (m : Mem) : Mem := fun j => if j < MAX_INPUT_LEN then 0 else m j

/-- `DrawDashboard(username, db)` during one frame: its `static` locals and the database
afterwards. -/
def DrawDashboard (f : Frame) (username : CStr) (s : DashboardState) (db : Db) :
    Option (DashboardState × Db) :=
  let addTaskHovered := f.mouseX > 440 ∧ f.mouseX < 540 ∧ f.mouseY > 80 ∧ f.mouseY < 120
  do
    let clicked ←
      if f.mousePressed = true then
        let s1 : DashboardState :=
          { s with taskInputFocused :=
              decide (f.mouseX > 20 ∧ f.mouseX < 420 ∧ f.mouseY > 80 ∧ f.mouseY < 120) }
        if addTaskHovered ∧ strlen s1.newTaskTitle > 0 then do
          let db1 := AddTask username (cstring s1.newTaskTitle STRLEN_SCAN) db
          let r ← FetchTasks username s1.tasks db1
          pure (({ s1 with newTaskTitle := memsetTitle s1.newTaskTitle,
                           taskCount := r.1, tasks := r.2 } : DashboardState), db1)
        else pure (s1, db)
      else pure (s, db)
    let s2 : DashboardState :=
      { clicked.1 with newTaskTitle :=
          HandleTaskInput f clicked.1.taskInputFocused clicked.1.newTaskTitle MAX_INPUT_LEN }
    let s3 ←
      if s2.taskCount = 0 then do
        let r ← FetchTasks username s2.tasks clicked.2
        pure ({ s2 with taskCount := r.1, tasks := r.2 } : DashboardState)
      else pure s2
    let drawn ← DrawTasks f s3.tasks s3.taskCount clicked.2
    pure ({ s3 with tasks := drawn.1 }, drawn.2)

/-- The tasks the dashboard shows from its cache: slots `0 .. taskCount - 1` of `tasks`. -/
def DashboardState.shown (s : DashboardState) : List Task := s.tasks.take s.taskCount

/-! ## Concrete databases for evaluation -/

/-- A database with one registered user, `al` with the password `pw`. -/
def dbAl : Db := ⟨[⟨1, [97, 108], hashString toyDigest [112, 119]⟩], []⟩

/-- A database where `al` owns the tasks 1 (`t`, pending) and 3 (`v`, completed) and `bo`
owns task 2 (`u`, pending). -/
def dbTasks : Db :=
  ⟨[], [⟨1, [97, 108], [116], 0⟩, ⟨2, [98, 111], [117], 0⟩, ⟨3, [97, 108], [118], 1⟩]⟩

/-- A database where `a` owns 101 tasks, with the ids 1 to 101 and the title `t`. -/
def db101 : Db := ⟨[], (List.range 101).map (fun i => ⟨(i : Int) + 1, [97], [116], 0⟩)⟩

/-- A run of the task store: `al` adds `t`, `bo` adds `u`, task 1 is completed, `al` adds
`v`, `bo` adds `w`, task 1 is deleted. It leaves task 2 and task 4 of `bo` and task 3 of
`al`. -/
def sampleOps : List TaskOp :=
  [.add [97, 108] [116], .add [98, 111] [117], .complete 1, .add [97, 108] [118],
   .add [98, 111] [119], .delete 1]

/-- A database where `b` owns task 1 and `a` owns the 101 tasks 2 to 102. -/
def dbCap : Db :=
  ⟨[], ⟨1, [98], [117], 0⟩ :: (List.range 101).map (fun i => ⟨(i : Int) + 2, [97], [116], 0⟩)⟩

/-- A run of authentication calls: `al` registers and logs in, `al` registers again, `bo`
registers and logs in with a wrong password. -/
def sampleAuthOps : List AuthOp :=
  [.register [97, 108] [112, 119], .login [97, 108] [112, 119], .register [97, 108] [120],
   .register [98, 111] [120], .login [98, 111] [112]]

/-- Memory holding a string of `n` letters `x` in a buffer of `MAX_INPUT_LEN` bytes, zero up
to the end of the buffer; the bytes behind the buffer hold 1. -/
def bufOf (n : Nat) : Mem := fun i => if i < n then 120 else if i < MAX_INPUT_LEN then 0 else 1

/-- A frame in which the character `a` is typed and nothing else happens. -/
def typeA : Frame := ⟨0, 0, false, false, [97]⟩

/-- A frame in which the characters `a` and `b` are typed. -/
def typeAB : Frame := ⟨0, 0, false, false, [97, 98]⟩

/-- A frame in which backspace is pressed. -/
def pressBackspace : Frame := ⟨0, 0, false, true, []⟩

/-- A database where `testuser` owns the tasks 1 (`t`) and 2 (`u`), both pending. -/
def dbTwo : Db := ⟨[], [⟨1, testuser, [116], 0⟩, ⟨2, testuser, [117], 0⟩]⟩

/-- The dashboard after it has fetched the two tasks of `dbTwo`. -/
def dashTwo : DashboardState :=
  ⟨[⟨1, [116], false⟩, ⟨2, [117], false⟩] ++ List.replicate 98 ⟨0, [], false⟩, 2,
    fun _ => 0, false⟩

/-- A frame with a click on the `Del` button of the first task row. -/
def clickDeleteFirst : Frame := ⟨700, 170, true, false, []⟩

/-- A database where `al` owns task 1 (`t`) and `testuser` owns task 2 (`u`). -/
def dbMixed : Db := ⟨[], [⟨1, [97, 108], [116], 0⟩, ⟨2, testuser, [117], 0⟩]⟩

/-- The dashboard of `al` after it has fetched the one task `al` owns in `dbMixed`. -/
def dashAl : DashboardState :=
  ⟨[⟨1, [116], false⟩] ++ List.replicate 99 ⟨0, [], false⟩, 1, fun _ => 0, false⟩

/-- A frame with a click on the `Done` button of the first task row. -/
def clickDoneFirst : Frame := ⟨630, 170, true, false, []⟩

/-! ## HashPassword: what the buffer holds -/

theorem hexChar_isLowerHex (d : Nat) (h : d < 16) : isLowerHex (hexChar d) := by
  unfold isLowerHex hexChar
  split <;> omega

theorem isLowerHex_ne_zero {c : Nat} (h : isLowerHex c) : c ≠ 0 := by
  unfold isLowerHex at h
  omega

/-- Invariant of the loop of `HashPassword` after `n` iterations: the first `n` digest bytes
are rendered, and nothing beyond offset `n * 2` has been touched. -/
theorem HashPassword_loop_spec (hash : Digest) (m : Mem) (n : Nat) (hn : n ≤ SHA256_DIGEST_LENGTH) :
    (∀ i : Fin SHA256_DIGEST_LENGTH, i.val < n →
      HashPassword.loop hash m n (i.val * 2) = hexChar ((hash i).val / 16) ∧
      HashPassword.loop hash m n (i.val * 2 + 1) = hexChar ((hash i).val % 16)) ∧
    (∀ j, n * 2 < j → HashPassword.loop hash m n j = m j) := by
  induction n with
  | zero =>
    refine ⟨fun i hi => absurd hi (Nat.not_lt_zero _), fun j _ => rfl⟩
  | succ n ih =>
    have hlt : n < SHA256_DIGEST_LENGTH := hn
    obtain ⟨ih1, ih2⟩ := ih (Nat.le_of_lt hlt)
    have hstep : HashPassword.loop hash m (n + 1)
        = sprintf_02x (HashPassword.loop hash m n) (n * 2) (hash ⟨n, hlt⟩) := by
      simp only [HashPassword.loop, dif_pos hlt]
    rw [hstep]
    refine ⟨fun i hi => ?_, fun j hj => ?_⟩
    · by_cases hin : i.val < n
      · obtain ⟨a, b⟩ := ih1 i hin
        have e1 : ¬ (i.val * 2 = n * 2 + 2) := by omega
        have e2 : ¬ (i.val * 2 = n * 2 + 1) := by omega
        have e3 : ¬ (i.val * 2 = n * 2) := by omega
        have e4 : ¬ (i.val * 2 + 1 = n * 2 + 2) := by omega
        have e5 : ¬ (i.val * 2 + 1 = n * 2 + 1) := by omega
        have e6 : ¬ (i.val * 2 + 1 = n * 2) := by omega
        simp only [sprintf_02x, poke, e1, e2, e3, e4, e5, e6, if_false]
        exact ⟨a, b⟩
      · have hi_eq : i = ⟨n, hlt⟩ := Fin.ext (by simp only; omega)
        subst hi_eq
        have e1 : ¬ (n * 2 = n * 2 + 2) := by omega
        have e2 : ¬ (n * 2 = n * 2 + 1) := by omega
        have e4 : ¬ (n * 2 + 1 = n * 2 + 2) := by omega
        simp only [sprintf_02x, poke, e1, e2, e4, if_false, if_true, and_self]
    · have e1 : ¬ (j = n * 2 + 2) := by omega
      have e2 : ¬ (j = n * 2 + 1) := by omega
      have e3 : ¬ (j = n * 2) := by omega
      simp only [sprintf_02x, poke, e1, e2, e3, if_false]
      exact ih2 j (by omega)

theorem HashPassword_digits (SHA256 : CStr → Digest) (password : CStr) (buf : Mem)
    (i : Fin SHA256_DIGEST_LENGTH) :
    HashPassword SHA256 password buf (i.val * 2) = hexChar ((SHA256 password i).val / 16) ∧
    HashPassword SHA256 password buf (i.val * 2 + 1) = hexChar ((SHA256 password i).val % 16) := by
  obtain ⟨a, b⟩ := (HashPassword_loop_spec (SHA256 password) buf SHA256_DIGEST_LENGTH
    (Nat.le_refl _)).1 i i.isLt
  have hi := i.isLt
  have e1 : ¬ (i.val * 2 = SHA256_DIGEST_LENGTH * 2) := by omega
  have e2 : ¬ (i.val * 2 + 1 = SHA256_DIGEST_LENGTH * 2) := by omega
  simp only [HashPassword, poke, e1, e2, if_false]
  exact ⟨a, b⟩

theorem HashPassword_terminator (SHA256 : CStr → Digest) (password : CStr) (buf : Mem) :
    HashPassword SHA256 password buf 64 = 0 := by
  have e : (64 : Nat) = SHA256_DIGEST_LENGTH * 2 := rfl
  simp only [HashPassword, poke, e, if_true]

theorem HashPassword_hex (SHA256 : CStr → Digest) (password : CStr) (buf : Mem) (j : Nat)
    (hj : j < 64) : isLowerHex (HashPassword SHA256 password buf j) := by
  have hq : j / 2 < SHA256_DIGEST_LENGTH := by
    have h32 : SHA256_DIGEST_LENGTH = 32 := rfl
    omega
  obtain ⟨a, b⟩ := HashPassword_digits SHA256 password buf ⟨j / 2, hq⟩
  have hb := (SHA256 password ⟨j / 2, hq⟩).isLt
  rcases Nat.mod_two_eq_zero_or_one j with h0 | h1
  · have e : j = j / 2 * 2 := by omega
    rw [e]
    simp only at a
    rw [a]
    exact hexChar_isLowerHex _ (by omega)
  · have e : j = j / 2 * 2 + 1 := by omega
    rw [e]
    simp only at b
    rw [b]
    exact hexChar_isLowerHex _ (Nat.mod_lt _ (by decide))

/-- The buffer of `HashPassword` does not depend on what it held before the call. -/
theorem HashPassword_init (SHA256 : CStr → Digest) (password : CStr) (buf buf2 : Mem) (j : Nat)
    (hj : j ≤ 64) :
    HashPassword SHA256 password buf2 j = HashPassword SHA256 password buf j := by
  rcases Nat.lt_or_ge j 64 with hlt | hge
  · have hq : j / 2 < SHA256_DIGEST_LENGTH := by
      have h32 : SHA256_DIGEST_LENGTH = 32 := rfl
      omega
    obtain ⟨a, b⟩ := HashPassword_digits SHA256 password buf ⟨j / 2, hq⟩
    obtain ⟨a2, b2⟩ := HashPassword_digits SHA256 password buf2 ⟨j / 2, hq⟩
    simp only at a b a2 b2
    rcases Nat.mod_two_eq_zero_or_one j with h0 | h1
    · have e : j = j / 2 * 2 := by omega
      rw [e, a, a2]
    · have e : j = j / 2 * 2 + 1 := by omega
      rw [e, b, b2]
  · have e : j = 64 := by omega
    rw [e, HashPassword_terminator, HashPassword_terminator]

/-- The string in the buffer of `HashPassword` is its first 64 bytes. -/
theorem HashPassword_cstring (SHA256 : CStr → Digest) (password : CStr) (buf : Mem) :
    cstring (HashPassword SHA256 password buf) (SHA256_DIGEST_LENGTH * 2 + 1)
      = (List.range 64).map (HashPassword SHA256 password buf) := by
  have hr : List.range (SHA256_DIGEST_LENGTH * 2 + 1) = List.range 64 ++ [64] := List.range_succ 64
  have hpos : ∀ a ∈ (List.range 64).map (HashPassword SHA256 password buf),
      (fun c => decide (c ≠ 0)) a = true := by
    intro a ha
    obtain ⟨j, hj, rfl⟩ := List.mem_map.1 ha
    have := isLowerHex_ne_zero (HashPassword_hex SHA256 password buf j (List.mem_range.1 hj))
    simpa using this
  unfold cstring
  rw [hr, List.map_append, List.takeWhile_append_of_pos hpos]
  simp [HashPassword_terminator]

/-- The string in the buffer of `HashPassword` does not depend on the buffer's old contents. -/
theorem HashPassword_cstring_init (SHA256 : CStr → Digest) (password : CStr) (buf : Mem) :
    cstring (HashPassword SHA256 password buf) (SHA256_DIGEST_LENGTH * 2 + 1)
      = hashString SHA256 password := by
  unfold hashString
  rw [HashPassword_cstring, HashPassword_cstring]
  apply List.map_congr_left
  intro j hj
  exact (HashPassword_init SHA256 password uninitialised buf j
    (Nat.le_of_lt (List.mem_range.1 hj)))

theorem stepInsertUser_present (username password : CStr) (db : Db)
    (h : userPresent username db) :
    stepInsertUser username password db = (Rc.SQLITE_CONSTRAINT, db) := by
  obtain ⟨r, hr, hu⟩ := h
  have hany : db.users.any (fun r => decide (r.username = username)) = true :=
    List.any_eq_true.2 ⟨r, hr, by simpa using hu⟩
  simp only [stepInsertUser, hany, if_true]

theorem stepInsertUser_absent (username password : CStr) (db : Db)
    (h : ¬ userPresent username db) :
    stepInsertUser username password db = (Rc.SQLITE_DONE,
      { db with users := db.users ++ [⟨nextRowid (db.users.map (·.id)), username, password⟩] }) := by
  have hany : ¬ (db.users.any (fun r => decide (r.username = username)) = true) := by
    intro hc
    obtain ⟨r, hr, hu⟩ := List.any_eq_true.1 hc
    exact h ⟨r, hr, by simpa using hu⟩
  simp [stepInsertUser, hany]

theorem RegisterUser_eq (SHA256 : CStr → Digest) (username password : CStr) (db : Db) :
    RegisterUser SHA256 username password db
      = (decide ((stepInsertUser username (hashString SHA256 password) db).1 = Rc.SQLITE_DONE),
         (stepInsertUser username (hashString SHA256 password) db).2) := by
  unfold RegisterUser hashString sqlite3_prepare_v2
  by_cases h : (stepInsertUser username
      (cstring (HashPassword SHA256 password uninitialised) (SHA256_DIGEST_LENGTH * 2 + 1)) db).1
        = Rc.SQLITE_DONE
  · simp [h]
  · simp [h]

theorem LoginUser_eq (SHA256 : CStr → Digest) (username password : CStr) (db : Db) :
    LoginUser SHA256 username password db
      = (decide (∃ r ∈ db.users, r.username = username ∧ r.password = hashString SHA256 password),
         db) := by
  unfold LoginUser hashString sqlite3_prepare_v2 stepSelectUser
  by_cases h : db.users.any (fun r => decide (r.username = username ∧ r.password
      = cstring (HashPassword SHA256 password uninitialised) (SHA256_DIGEST_LENGTH * 2 + 1))) = true
  · have hex : ∃ r ∈ db.users, r.username = username ∧ r.password
        = cstring (HashPassword SHA256 password uninitialised) (SHA256_DIGEST_LENGTH * 2 + 1) := by
      obtain ⟨r, hr, hp⟩ := List.any_eq_true.1 h
      exact ⟨r, hr, by simpa using hp⟩
    simp [h, hex]
  · have hex : ¬ ∃ r ∈ db.users, r.username = username ∧ r.password
        = cstring (HashPassword SHA256 password uninitialised) (SHA256_DIGEST_LENGTH * 2 + 1) := by
      rintro ⟨r, hr, hp⟩
      exact h (List.any_eq_true.2 ⟨r, hr, by simpa using hp⟩)
    simp [h, hex]

/-- C1: when the username is already in the `users` table, `RegisterUser` returns false for
every password and the database afterwards, the `users` table and each stored hash in
it included, is the database before the call. -/
theorem RegisterUser_existing (SHA256 : CStr → Digest) (username password : CStr) (db : Db)
    (h : userPresent username db) :
    RegisterUser SHA256 username password db = (false, db) := by
  rw [RegisterUser_eq, stepInsertUser_present username _ db h]
  simp

theorem RegisterUser_existing_witness :
    userPresent [97, 108] dbAl ∧ RegisterUser toyDigest [97, 108] [120] dbAl = (false, dbAl) :=
  ⟨by decide, RegisterUser_existing toyDigest [97, 108] [120] dbAl (by decide)⟩

/-- C2: when the username is not yet in the `users` table, `RegisterUser` returns true, the
database afterwards is the one before with the row (username, hash string of the password)
appended to `users`, and `LoginUser` with the same username and password on that database
returns true. -/
theorem RegisterUser_new_then_login (SHA256 : CStr → Digest) (username password : CStr) (db : Db)
    (h : ¬ userPresent username db) :
    RegisterUser SHA256 username password db
      = (true, { db with users := db.users ++
          [⟨nextRowid (db.users.map (·.id)), username, hashString SHA256 password⟩] }) ∧
    (LoginUser SHA256 username password (RegisterUser SHA256 username password db).2).1 = true := by
  have hreg : RegisterUser SHA256 username password db
      = (true, { db with users := db.users ++
          [⟨nextRowid (db.users.map (·.id)), username, hashString SHA256 password⟩] }) := by
    rw [RegisterUser_eq, stepInsertUser_absent username _ db h]
    simp
  refine ⟨hreg, ?_⟩
  rw [hreg, LoginUser_eq]
  simp only [decide_eq_true_eq]
  exact ⟨_, List.mem_append_right _ (List.mem_singleton_self _), rfl, rfl⟩

theorem RegisterUser_new_then_login_witness :
    ¬ userPresent [98, 111] dbAl ∧
    (RegisterUser toyDigest [98, 111] [120] dbAl
      = (true, { dbAl with users := dbAl.users ++
          [⟨nextRowid (dbAl.users.map (·.id)), [98, 111], hashString toyDigest [120]⟩] }) ∧
     (LoginUser toyDigest [98, 111] [120] (RegisterUser toyDigest [98, 111] [120] dbAl).2).1
      = true) :=
  ⟨by decide, RegisterUser_new_then_login toyDigest [98, 111] [120] dbAl (by decide)⟩

/-- C3: for every database, username and password, `LoginUser` returns true exactly when
some row of `users` has that username and, as its password field, the hash string of that
password, and it returns the database it was given. A login with a username that is in no
row returns `(false, db)`; so does a login with a username that is in a row but a password
whose hash string is in no row of that username; the two results are the same value. -/
theorem LoginUser_spec (SHA256 : CStr → Digest) (db : Db) (username password : CStr) :
    ((LoginUser SHA256 username password db).1 = true ↔
      ∃ r ∈ db.users, r.username = username ∧ r.password = hashString SHA256 password) ∧
    (LoginUser SHA256 username password db).2 = db ∧
    (∀ u1 p1 : CStr, ¬ userPresent u1 db → LoginUser SHA256 u1 p1 db = (false, db)) ∧
    (∀ u2 p2 : CStr, userPresent u2 db →
      (¬ ∃ r ∈ db.users, r.username = u2 ∧ r.password = hashString SHA256 p2) →
      LoginUser SHA256 u2 p2 db = (false, db)) ∧
    (∀ u1 p1 u2 p2 : CStr, ¬ userPresent u1 db → userPresent u2 db →
      (¬ ∃ r ∈ db.users, r.username = u2 ∧ r.password = hashString SHA256 p2) →
      LoginUser SHA256 u1 p1 db = LoginUser SHA256 u2 p2 db) := by
  have e1 : ∀ u1 p1 : CStr, ¬ userPresent u1 db → LoginUser SHA256 u1 p1 db = (false, db) := by
    intro u1 p1 h1
    have hno : ¬ ∃ r ∈ db.users, r.username = u1 ∧ r.password = hashString SHA256 p1 := by
      rintro ⟨r, hr, hu, _⟩
      exact h1 ⟨r, hr, hu⟩
    rw [LoginUser_eq]; simp only [hno, decide_False]
  have e2 : ∀ u2 p2 : CStr,
      (¬ ∃ r ∈ db.users, r.username = u2 ∧ r.password = hashString SHA256 p2) →
      LoginUser SHA256 u2 p2 db = (false, db) := by
    intro u2 p2 h3
    rw [LoginUser_eq]; simp only [h3, decide_False]
  refine ⟨?_, ?_, e1, fun u2 p2 _ h3 => e2 u2 p2 h3,
    fun u1 p1 u2 p2 h1 _ h3 => (e1 u1 p1 h1).trans (e2 u2 p2 h3).symm⟩
  · rw [LoginUser_eq]; simp
  · rw [LoginUser_eq]

theorem LoginUser_spec_witness :
    (LoginUser toyDigest [97, 108] [112, 119] dbAl).1 = true ∧
    (LoginUser toyDigest [97, 108] [112, 119] dbAl).2 = dbAl ∧
    LoginUser toyDigest [98, 111] [112, 119] dbAl = (false, dbAl) ∧
    LoginUser toyDigest [97, 108] [120] dbAl = (false, dbAl) ∧
    LoginUser toyDigest [98, 111] [112, 119] dbAl = LoginUser toyDigest [97, 108] [120] dbAl ∧
    LoginUser toyDigest [97, 108] [112, 119] emptyDb = (false, emptyDb) :=
  ⟨(LoginUser_spec toyDigest dbAl [97, 108] [112, 119]).1.2 (by decide),
   (LoginUser_spec toyDigest dbAl [97, 108] [112, 119]).2.1,
   (LoginUser_spec toyDigest dbAl [97, 108] [112, 119]).2.2.1 [98, 111] [112, 119] (by decide),
   (LoginUser_spec toyDigest dbAl [97, 108] [112, 119]).2.2.2.1 [97, 108] [120]
     (by decide) (by decide),
   (LoginUser_spec toyDigest dbAl [97, 108] [112, 119]).2.2.2.2 [98, 111] [112, 119]
     [97, 108] [120] (by decide) (by decide) (by decide),
   (LoginUser_spec toyDigest emptyDb [97, 108] [112, 119]).2.2.1 [97, 108] [112, 119]
     (by decide)⟩

/-! ## The task store -/

theorem set_take_succ {α : Type} (l : List α) (n : Nat) (a : α) (h : n < l.length) :
    (l.set n a).take (n + 1) = l.take n ++ [a] := by
  induction l generalizing n with
  | nil => simp at h
  | cons x xs ih =>
    cases n with
    | zero => simp
    | succ n =>
      have h2 : n < xs.length := by simpa using h
      simp [ih n h2]

/-- Result of the loop of `FetchTasks` started at slot `n` on rows whose titles fit: it
stores the first `MAX_TASKS - n` rows in slots `n, n + 1, ...` and touches no other slot. -/
theorem FetchTasks_loop_spec (rows : List TaskRow) (n : Nat) (tasks : List Task)
    (hfit : ∀ r ∈ rows, r.title.length < MAX_INPUT_LEN) (hlen : MAX_TASKS ≤ tasks.length)
    (hn : n ≤ MAX_TASKS) :
    FetchTasks.loop rows n tasks
      = some (n + min (MAX_TASKS - n) rows.length,
          tasks.take n ++ (rows.take (MAX_TASKS - n)).map toTask
            ++ tasks.drop (n + min (MAX_TASKS - n) rows.length)) := by
  induction rows generalizing n tasks with
  | nil => simp [FetchTasks.loop]
  | cons r rest ih =>
    by_cases hlt : n < MAX_TASKS
    · have hslot : n < tasks.length := Nat.lt_of_lt_of_le hlt hlen
      have hr : r.title.length < MAX_INPUT_LEN := hfit r (List.mem_cons_self _ _)
      have hrest : ∀ x ∈ rest, x.title.length < MAX_INPUT_LEN :=
        fun x hx => hfit x (List.mem_cons_of_mem _ hx)
      have hih := ih (n + 1) (tasks.set n (toTask r)) hrest (by simpa using hlen) hlt
      have hk : MAX_TASKS - n = (MAX_TASKS - (n + 1)) + 1 := by omega
      have hcount : n + min (MAX_TASKS - n) (r :: rest).length
          = n + 1 + min (MAX_TASKS - (n + 1)) rest.length := by
        simp only [List.length_cons]; omega
      have hstep : FetchTasks.loop (r :: rest) n tasks
          = FetchTasks.loop rest (n + 1) (tasks.set n (toTask r)) := by
        simp only [FetchTasks.loop, if_pos hlt, if_pos hslot, strcpy, if_pos hr, toTask]
      rw [hstep, hih, hcount, set_take_succ tasks n (toTask r) hslot,
        List.drop_set_of_lt (toTask r) tasks (by omega), hk, List.take_succ_cons]
      simp
    · have hn100 : n = MAX_TASKS := by omega
      subst hn100
      simp [FetchTasks.loop]

theorem FetchTasks_eq (username : CStr) (tasks : List Task) (db : Db) (hfit : TitlesFit db)
    (hlen : MAX_TASKS ≤ tasks.length) :
    FetchTasks username tasks db
      = some (min MAX_TASKS (selectTasks username db).length,
          ((selectTasks username db).take MAX_TASKS).map toTask
            ++ tasks.drop (min MAX_TASKS (selectTasks username db).length)) := by
  have hrows : ∀ r ∈ selectTasks username db, r.title.length < MAX_INPUT_LEN :=
    fun r hr => hfit r (List.mem_of_mem_filter hr)
  have h := FetchTasks_loop_spec (selectTasks username db) 0 tasks hrows hlen (Nat.zero_le _)
  simpa [FetchTasks] using h

theorem fetched_eq (username : CStr) (tasks : List Task) (db : Db) (hfit : TitlesFit db)
    (hlen : MAX_TASKS ≤ tasks.length) :
    fetched username tasks db = some (((selectTasks username db).take MAX_TASKS).map toTask) := by
  rw [fetched, FetchTasks_eq username tasks db hfit hlen]
  simp only [Option.map_some', Option.some.injEq]
  apply List.take_left'
  simp [List.length_take]

set_option maxRecDepth 100000 in
/-- Where `TitlesFit` ends: a stored title of `MAX_INPUT_LEN` bytes does not fit
`Task.title` with its terminator, and `FetchTasks` has no defined result. -/
theorem FetchTasks_title_overrun :
    FetchTasks [97] zeroTasks (AddTask [97] (List.replicate MAX_INPUT_LEN 65) emptyDb) = none := by
  decide

theorem sqlite3_column_int_of_int (v : Int) (h : -2 ^ 31 ≤ v ∧ v < 2 ^ 31) :
    sqlite3_column_int v = v := by
  unfold sqlite3_column_int
  omega

theorem selectTasks_AddTask (username title u : CStr) (db : Db) :
    selectTasks u (AddTask username title db)
      = selectTasks u db ++
        (if username = u then [⟨nextRowid (db.tasks.map (·.id)), username, title, 0⟩] else []) := by
  by_cases h : username = u <;> simp [selectTasks, AddTask, stepInsertTask, List.filter_append, h]

theorem TitlesFit_AddTask (username title : CStr) (db : Db) (hfit : TitlesFit db)
    (ht : title.length < MAX_INPUT_LEN) : TitlesFit (AddTask username title db) := by
  intro r hr
  simp only [AddTask, stepInsertTask, List.mem_append, List.mem_singleton] at hr
  rcases hr with hr | rfl
  · exact hfit r hr
  · exact ht

theorem AddTask_tasks (username title : CStr) (db : Db) :
    (AddTask username title db).tasks
      = db.tasks ++ [⟨nextRowid (db.tasks.map (·.id)), username, title, 0⟩] := rfl

theorem selectTasks_eq_ownedBy (username : CStr) (db : Db) :
    selectTasks username db = ownedBy username db.tasks := by
  unfold selectTasks
  induction db.tasks with
  | nil => rfl
  | cons r rest ih =>
    by_cases h : r.username = username
    · simp [ownedBy, List.filter_cons, h, ih]
    · simp [ownedBy, List.filter_cons, h, ih]

/-- Below `2 ^ 31` the rowid of the model is the one SQLite's increment rule gives: it does
not pass `MAX_ROWID`, where SQLite would draw a rowid at random. -/
theorem nextRowid_le_max (ids : List Int) (h : ∀ k ∈ ids, k < 2 ^ 31) :
    nextRowid ids ≤ MAX_ROWID := by
  have hmax : (2 : Int) ^ 31 ≤ MAX_ROWID := by decide
  rcases List.eq_nil_or_concat ids with rfl | ⟨l, a, rfl⟩
  · have : nextRowid [] = 1 := rfl
    rw [this]
    omega
  · rw [List.concat_eq_append] at h ⊢
    have hlast : nextRowid (l ++ [a]) = a + 1 := by simp [nextRowid]
    have ha := h a (List.mem_append_right _ (List.mem_singleton_self a))
    rw [hlast]
    omega

theorem selectTasks_MarkTaskComplete (taskId : Int) (u : CStr) (db : Db) :
    selectTasks u (MarkTaskComplete taskId db)
      = (selectTasks u db).map
          (fun r => if r.id = taskId then { r with completed := 1 } else r) := by
  simp only [selectTasks, MarkTaskComplete, stepUpdateCompleted, List.filter_map]
  congr 1
  apply List.filter_congr
  intro r _
  by_cases h : r.id = taskId <;> simp [h]

theorem TitlesFit_MarkTaskComplete (taskId : Int) (db : Db) (hfit : TitlesFit db) :
    TitlesFit (MarkTaskComplete taskId db) := by
  intro r hr
  simp only [MarkTaskComplete, stepUpdateCompleted, List.mem_map] at hr
  obtain ⟨r0, hr0, rfl⟩ := hr
  by_cases h : r0.id = taskId
  · simpa [h] using hfit r0 hr0
  · simpa [h] using hfit r0 hr0

theorem MarkTaskComplete_idem (taskId : Int) (db : Db) :
    MarkTaskComplete taskId (MarkTaskComplete taskId db) = MarkTaskComplete taskId db := by
  simp only [MarkTaskComplete, stepUpdateCompleted, List.map_map, Db.mk.injEq, true_and]
  apply List.map_congr_left
  intro r _
  by_cases h : r.id = taskId <;> simp [h]

theorem toTask_mark (taskId : Int) (r : TaskRow) (hr : -2 ^ 31 ≤ r.id ∧ r.id < 2 ^ 31) :
    toTask (if r.id = taskId then { r with completed := 1 } else r)
      = if (toTask r).id = taskId then { toTask r with completed := true } else toTask r := by
  have hid : (toTask r).id = r.id := sqlite3_column_int_of_int r.id hr
  rw [hid]
  by_cases h : r.id = taskId
  · subst h
    simp only [if_true]
    simp [toTask, sqlite3_column_int]
  · simp only [h, if_false]

/-- C6, as the code has it: in a database whose task rows fit the struct `Task` (ids are C
ints, titles fit), `FetchTasks` for any user after `MarkTaskComplete(taskId)` returns the
tasks it returned before, in the same order, with `completed = true` on each task whose
id is `taskId` and every other task, and the id and title of that task, unchanged; a task
with that id among the first `MAX_TASKS` rows of the user is returned, with
`completed = true`; and a second `MarkTaskComplete(taskId)` leaves the database as the
first left it. -/
theorem MarkTaskComplete_then_FetchTasks (taskId : Int) (username : CStr) (db : Db)
    (tasks tasks2 : List Task) (hfit : TitlesFit db) (hids : IdsInt db)
    (hlen : MAX_TASKS ≤ tasks.length) (hlen2 : MAX_TASKS ≤ tasks2.length) :
    ∃ before : List Task,
      fetched username tasks db = some before ∧
      fetched username tasks2 (MarkTaskComplete taskId db)
        = some (before.map (fun t => if t.id = taskId then { t with completed := true } else t)) ∧
      (∀ r ∈ (selectTasks username db).take MAX_TASKS, r.id = taskId →
        (⟨taskId, r.title, true⟩ : Task) ∈
          before.map (fun t => if t.id = taskId then { t with completed := true } else t)) ∧
      MarkTaskComplete taskId (MarkTaskComplete taskId db) = MarkTaskComplete taskId db := by
  have hrows : ∀ r ∈ (selectTasks username db).take MAX_TASKS,
      -2 ^ 31 ≤ r.id ∧ r.id < 2 ^ 31 :=
    fun r hr => hids r (List.mem_of_mem_filter (List.mem_of_mem_take hr))
  refine ⟨((selectTasks username db).take MAX_TASKS).map toTask,
    fetched_eq username tasks db hfit hlen, ?_, ?_, MarkTaskComplete_idem taskId db⟩
  · rw [fetched_eq username tasks2 _ (TitlesFit_MarkTaskComplete taskId db hfit) hlen2,
      selectTasks_MarkTaskComplete, ← List.map_take, List.map_map, List.map_map]
    congr 1
    apply List.map_congr_left
    intro r hr
    exact toTask_mark taskId r (hrows r hr)
  · intro r hr hid
    rw [List.map_map]
    refine List.mem_map.2 ⟨r, hr, ?_⟩
    have hcol : sqlite3_column_int r.id = taskId := by
      rw [sqlite3_column_int_of_int r.id (hrows r hr), hid]
    simp [toTask, hcol]

theorem MarkTaskComplete_then_FetchTasks_witness :
    TitlesFit dbTasks ∧ IdsInt dbTasks ∧ MAX_TASKS ≤ zeroTasks.length ∧
    ∃ before : List Task,
      fetched [97, 108] zeroTasks dbTasks = some before ∧
      fetched [97, 108] zeroTasks (MarkTaskComplete 1 dbTasks)
        = some (before.map (fun t => if t.id = 1 then { t with completed := true } else t)) ∧
      (∀ r ∈ (selectTasks [97, 108] dbTasks).take MAX_TASKS, r.id = 1 →
        (⟨1, r.title, true⟩ : Task) ∈
          before.map (fun t => if t.id = 1 then { t with completed := true } else t)) ∧
      MarkTaskComplete 1 (MarkTaskComplete 1 dbTasks) = MarkTaskComplete 1 dbTasks :=
  ⟨by decide, by decide, by decide,
    MarkTaskComplete_then_FetchTasks 1 [97, 108] dbTasks zeroTasks zeroTasks
      (by decide) (by decide) (by decide) (by decide)⟩

set_option maxRecDepth 200000 in
/-- C6 as stated fails: in `db101` the task with id 101 is stored and owned by `a`, its rows
fit the struct `Task`, and `FetchTasks` for `a` after `MarkTaskComplete(101)` returns 100
tasks, none of which has the id 101. -/
theorem MarkTaskComplete_not_shown :
    (∃ r ∈ db101.tasks, r.id = 101 ∧ r.username = [97]) ∧
    TitlesFit db101 ∧ IdsInt db101 ∧
    ∃ after : List Task,
      fetched [97] zeroTasks (MarkTaskComplete 101 db101) = some after ∧
      after.length = 100 ∧ ∀ t ∈ after, t.id ≠ 101 := by
  refine ⟨by decide, by decide, by decide, _, rfl, by decide, by decide⟩

theorem selectTasks_DeleteTask (taskId : Int) (u : CStr) (db : Db) :
    selectTasks u (DeleteTask taskId db)
      = (selectTasks u db).filter (fun r => decide (r.id ≠ taskId)) := by
  simp only [selectTasks, DeleteTask, stepDeleteTask, List.filter_filter]
  apply List.filter_congr
  intro r _
  exact Bool.and_comm _ _

theorem TitlesFit_DeleteTask (taskId : Int) (db : Db) (hfit : TitlesFit db) :
    TitlesFit (DeleteTask taskId db) := by
  intro r hr
  simp only [DeleteTask, stepDeleteTask] at hr
  exact hfit r (List.mem_of_mem_filter hr)

theorem filter_take_initial {α : Type} (p : α → Bool) (l : List α) (n : Nat) :
    (l.take n).filter p <+: (l.filter p).take n := by
  rw [List.prefix_take_iff]
  refine ⟨List.IsPrefix.filter p ⟨l.drop n, List.take_append_drop n l⟩, ?_⟩
  exact (List.length_filter_le _ _).trans (by simp)

theorem DeleteTask_eq_self_iff (taskId : Int) (db : Db) :
    DeleteTask taskId db = db ↔ ∀ r ∈ db.tasks, r.id ≠ taskId := by
  constructor
  · intro h r hr
    have ht : (DeleteTask taskId db).tasks = db.tasks := by rw [h]
    simp only [DeleteTask, stepDeleteTask] at ht
    have := (List.filter_eq_self.1 ht) r hr
    simpa using this
  · intro h
    have ht : db.tasks.filter (fun r => decide (r.id ≠ taskId)) = db.tasks :=
      List.filter_eq_self.2 (fun r hr => by simpa using h r hr)
    simp only [DeleteTask, stepDeleteTask, ht]

/-- C7, as the code has it: in a database whose task rows fit the struct `Task`, for every
user, `FetchTasks` after `DeleteTask(taskId)` returns no task with that id, and the tasks
with another id that it returned before are all returned again, unchanged and in the same
order, at the front of the result; they are the whole result when the user has at most
`MAX_TASKS` rows; the statement reports `SQLITE_DONE`; and the database is left as it was
exactly when no row has that id. -/
theorem DeleteTask_then_FetchTasks (taskId : Int) (username : CStr) (db : Db)
    (tasks tasks2 : List Task) (hfit : TitlesFit db) (hids : IdsInt db)
    (hlen : MAX_TASKS ≤ tasks.length) (hlen2 : MAX_TASKS ≤ tasks2.length) :
    ∃ before after : List Task,
      fetched username tasks db = some before ∧
      fetched username tasks2 (DeleteTask taskId db) = some after ∧
      (∀ t ∈ after, t.id ≠ taskId) ∧
      before.filter (fun t => decide (t.id ≠ taskId)) <+: after ∧
      (∀ t ∈ before, t.id ≠ taskId → t ∈ after) ∧
      ((selectTasks username db).length ≤ MAX_TASKS →
        after = before.filter (fun t => decide (t.id ≠ taskId))) ∧
      (stepDeleteTask taskId db).1 = Rc.SQLITE_DONE ∧
      (DeleteTask taskId db = db ↔ ∀ r ∈ db.tasks, r.id ≠ taskId) := by
  have hcol : ∀ r ∈ selectTasks username db, (toTask r).id = r.id :=
    fun r hr => sqlite3_column_int_of_int r.id (hids r (List.mem_of_mem_filter hr))
  have hpre : (((selectTasks username db).take MAX_TASKS).map toTask).filter
        (fun t => decide (t.id ≠ taskId))
      <+: (((selectTasks username db).filter (fun r => decide (r.id ≠ taskId))).take
        MAX_TASKS).map toTask := by
    rw [List.filter_map]
    have hc : ((selectTasks username db).take MAX_TASKS).filter
          ((fun t : Task => decide (t.id ≠ taskId)) ∘ toTask)
        = ((selectTasks username db).take MAX_TASKS).filter (fun r => decide (r.id ≠ taskId)) := by
      apply List.filter_congr
      intro r hr
      simp only [Function.comp, hcol r (List.mem_of_mem_take hr)]
    rw [hc]
    exact List.IsPrefix.map toTask (filter_take_initial _ _ _)
  refine ⟨((selectTasks username db).take MAX_TASKS).map toTask,
    (((selectTasks username db).filter (fun r => decide (r.id ≠ taskId))).take MAX_TASKS).map
      toTask,
    fetched_eq username tasks db hfit hlen, ?_, ?_, hpre, ?_, ?_, rfl,
    DeleteTask_eq_self_iff taskId db⟩
  · rw [fetched_eq username tasks2 _ (TitlesFit_DeleteTask taskId db hfit) hlen2,
      selectTasks_DeleteTask]
  · intro t ht
    obtain ⟨r, hr, rfl⟩ := List.mem_map.1 ht
    have hr2 := List.mem_of_mem_take hr
    have hr3 := List.mem_filter.1 hr2
    rw [hcol r hr3.1]
    simpa using hr3.2
  · intro t ht hne
    exact hpre.subset (List.mem_filter.2 ⟨ht, by simpa using hne⟩)
  · intro hle
    have hle2 : ((selectTasks username db).filter (fun r => decide (r.id ≠ taskId))).length
        ≤ MAX_TASKS := (List.length_filter_le _ _).trans hle
    rw [List.take_of_length_le hle, List.take_of_length_le hle2, List.filter_map]
    congr 1
    apply List.filter_congr
    intro r hr
    simp only [Function.comp, hcol r hr]

theorem DeleteTask_then_FetchTasks_witness :
    TitlesFit dbTasks ∧ IdsInt dbTasks ∧ MAX_TASKS ≤ zeroTasks.length ∧
    ∃ before after : List Task,
      fetched [97, 108] zeroTasks dbTasks = some before ∧
      fetched [97, 108] zeroTasks (DeleteTask 1 dbTasks) = some after ∧
      (∀ t ∈ after, t.id ≠ 1) ∧
      before.filter (fun t => decide (t.id ≠ 1)) <+: after ∧
      (∀ t ∈ before, t.id ≠ 1 → t ∈ after) ∧
      ((selectTasks [97, 108] dbTasks).length ≤ MAX_TASKS →
        after = before.filter (fun t => decide (t.id ≠ 1))) ∧
      (stepDeleteTask 1 dbTasks).1 = Rc.SQLITE_DONE ∧
      (DeleteTask 1 dbTasks = dbTasks ↔ ∀ r ∈ dbTasks.tasks, r.id ≠ 1) :=
  ⟨by decide, by decide, by decide,
    DeleteTask_then_FetchTasks 1 [97, 108] dbTasks zeroTasks zeroTasks
      (by decide) (by decide) (by decide) (by decide)⟩

set_option maxRecDepth 200000 in
/-- C7 as stated fails: in `db101`, whose rows fit the struct `Task`, task 101 is owned by
`a` and has an id other than 1, `FetchTasks` for `a` does not return it, and after
`DeleteTask(1)` `FetchTasks` for `a` does return it. -/
theorem DeleteTask_reveals_task :
    (∃ r ∈ db101.tasks, r.id = 101 ∧ r.username = [97]) ∧
    TitlesFit db101 ∧ IdsInt db101 ∧
    ∃ before after : List Task,
      fetched [97] zeroTasks db101 = some before ∧
      fetched [97] zeroTasks (DeleteTask 1 db101) = some after ∧
      (∀ t ∈ before, t.id ≠ 101) ∧
      (⟨101, [116], false⟩ : Task) ∈ after := by
  refine ⟨by decide, by decide, by decide, _, _, rfl, rfl, by decide, by decide⟩

theorem TitlesFit_runOps (ops : List TaskOp) (db : Db) (hfit : TitlesFit db) (hops : OpsFit ops) :
    TitlesFit (runOps ops db) := by
  induction ops generalizing db with
  | nil => exact hfit
  | cons op rest ih =>
    have hrest : OpsFit rest := fun o h => hops o (List.mem_cons_of_mem _ h)
    have hstep : TitlesFit (TaskOp.apply db op) := by
      cases op with
      | add u t =>
        have ht := hops (TaskOp.add u t) (List.mem_cons_self _ _)
        exact TitlesFit_AddTask u t db hfit (by simpa [TaskOp.fits] using ht)
      | complete k => exact TitlesFit_MarkTaskComplete k db hfit
      | delete k => exact TitlesFit_DeleteTask k db hfit
    exact ih (TaskOp.apply db op) hstep hrest

/-- C8: after any sequence of `AddTask`, `MarkTaskComplete` and `DeleteTask` calls (titles
that fit `Task.title`) on a database whose titles fit, `FetchTasks(b)` returns, and what it
returns are rows of the `tasks` table, each with `username = b`, so for a user `a` other
than `b` none of them is owned by `a`. -/
theorem FetchTasks_scoped (ops : List TaskOp) (db0 : Db) (a b : CStr) (tasks : List Task)
    (hab : a ≠ b) (h0 : TitlesFit db0) (hops : OpsFit ops) (hlen : MAX_TASKS ≤ tasks.length) :
    ∃ rows : List TaskRow,
      fetched b tasks (runOps ops db0) = some (rows.map toTask) ∧
      rows.Sublist (runOps ops db0).tasks ∧
      ∀ r ∈ rows, r.username = b ∧ r.username ≠ a := by
  refine ⟨(selectTasks b (runOps ops db0)).take MAX_TASKS,
    fetched_eq b tasks _ (TitlesFit_runOps ops db0 h0 hops) hlen, ?_, ?_⟩
  · exact (List.take_sublist _ _).trans (List.filter_sublist _)
  · intro r hr
    have hmem := List.mem_filter.1 (List.mem_of_mem_take hr)
    have hu : r.username = b := by simpa using hmem.2
    exact ⟨hu, fun h => hab (h.symm.trans hu)⟩

theorem FetchTasks_scoped_witness :
    ([97, 108] : CStr) ≠ [98, 111] ∧ TitlesFit emptyDb ∧ OpsFit sampleOps ∧
    MAX_TASKS ≤ zeroTasks.length ∧
    (∃ r ∈ (runOps sampleOps emptyDb).tasks, r.username = [97, 108]) ∧
    (∃ r ∈ (runOps sampleOps emptyDb).tasks, r.username = [98, 111]) ∧
    ∃ rows : List TaskRow,
      fetched [98, 111] zeroTasks (runOps sampleOps emptyDb) = some (rows.map toTask) ∧
      rows.Sublist (runOps sampleOps emptyDb).tasks ∧
      ∀ r ∈ rows, r.username = [98, 111] ∧ r.username ≠ [97, 108] :=
  ⟨by decide, by decide, by decide, by decide, by decide, by decide,
    FetchTasks_scoped sampleOps emptyDb [97, 108] [98, 111] zeroTasks
      (by decide) (by decide) (by decide) (by decide)⟩

/-- C9: in a database whose titles fit `Task.title`, `FetchTasks(username)` on an array of at
least `MAX_TASKS` slots returns the count `min(100, number of rows the user owns)`, which
is at most `MAX_TASKS`; slots `0 .. count - 1` hold the first 100 of the rows the user owns,
in table order, and no row of another user; the array keeps its length and every slot from
`count` on, so every slot at index 100 or above, holds what it held before; and, where
the ids are C ints, table order is insertion order: the row that `AddTask` inserts is last
in the table, after all rows the user had, with a rowid assigned by increment. -/
theorem FetchTasks_capped (username : CStr) (tasks : List Task) (db : Db) (hfit : TitlesFit db)
    (hlen : MAX_TASKS ≤ tasks.length) :
    ∃ (count : Nat) (out : List Task),
      FetchTasks username tasks db = some (count, out) ∧
      count = min MAX_TASKS (ownedBy username db.tasks).length ∧
      count ≤ MAX_TASKS ∧
      out.take count = ((ownedBy username db.tasks).take MAX_TASKS).map toTask ∧
      out.length = tasks.length ∧
      out.drop count = tasks.drop count ∧
      (∀ i : Nat, out[MAX_TASKS + i]? = tasks[MAX_TASKS + i]?) ∧
      (IdsInt db → ∀ title : CStr, ∃ rowid : Int, rowid ≤ MAX_ROWID ∧
        (AddTask username title db).tasks = db.tasks ++ [⟨rowid, username, title, 0⟩] ∧
        ownedBy username (AddTask username title db).tasks
          = ownedBy username db.tasks ++ [⟨rowid, username, title, 0⟩]) := by
  rw [← selectTasks_eq_ownedBy username db]
  have hcl : (((selectTasks username db).take MAX_TASKS).map toTask).length
      = min MAX_TASKS (selectTasks username db).length := by
    simp [List.length_take]
  have hle : min MAX_TASKS (selectTasks username db).length ≤ tasks.length :=
    (Nat.min_le_left _ _).trans hlen
  refine ⟨_, _, FetchTasks_eq username tasks db hfit hlen, rfl, Nat.min_le_left _ _,
    List.take_left' hcl, ?_, List.drop_left' hcl, ?_, ?_⟩
  · rw [List.length_append, hcl, List.length_drop]
    omega
  · intro i
    rw [List.getElem?_append_right (by rw [hcl]; omega), hcl, List.getElem?_drop]
    congr 1
    omega
  · intro hids title
    have hrow : nextRowid (db.tasks.map (·.id)) ≤ MAX_ROWID := by
      apply nextRowid_le_max
      intro k hk
      obtain ⟨r, hr, rfl⟩ := List.mem_map.1 hk
      exact (hids r hr).2
    refine ⟨nextRowid (db.tasks.map (·.id)), hrow, AddTask_tasks username title db, ?_⟩
    rw [← selectTasks_eq_ownedBy username (AddTask username title db)]
    have := selectTasks_AddTask username title username db
    rwa [if_pos rfl] at this

theorem FetchTasks_capped_witness :
    TitlesFit dbCap ∧ IdsInt dbCap ∧ MAX_TASKS ≤ zeroTasks.length ∧
    (∃ r ∈ dbCap.tasks, r.username = [98]) ∧
    ∃ (count : Nat) (out : List Task),
      FetchTasks [97] zeroTasks dbCap = some (count, out) ∧
      count = min MAX_TASKS (ownedBy [97] dbCap.tasks).length ∧
      count ≤ MAX_TASKS ∧
      out.take count = ((ownedBy [97] dbCap.tasks).take MAX_TASKS).map toTask ∧
      out.length = zeroTasks.length ∧
      out.drop count = zeroTasks.drop count ∧
      (∀ i : Nat, out[MAX_TASKS + i]? = zeroTasks[MAX_TASKS + i]?) ∧
      (IdsInt dbCap → ∀ title : CStr, ∃ rowid : Int, rowid ≤ MAX_ROWID ∧
        (AddTask [97] title dbCap).tasks = dbCap.tasks ++ [⟨rowid, [97], title, 0⟩] ∧
        ownedBy [97] (AddTask [97] title dbCap).tasks
          = ownedBy [97] dbCap.tasks ++ [⟨rowid, [97], title, 0⟩]) :=
  ⟨by decide, by decide, by decide, by decide,
    FetchTasks_capped [97] zeroTasks dbCap (by decide) (by decide)⟩

/-- C10: a click on the register button with an empty username or an empty password does
not call `RegisterUser`: the database, the `users` table included, is unchanged, the popup
shows `Please fill in all fields!` in red, and the registration screen stays. -/
theorem registerButtonClicked_empty (SHA256 : CStr → Digest)
    (registration_username registration_password : CStr) (ui : AuthUi) (db : Db)
    (h : registration_username = [] ∨ registration_password = []) :
    registerButtonClicked SHA256 registration_username registration_password ui db
      = ({ ui with popupMessage := "Please fill in all fields!", popupColor := Color.RED,
                   showPopup := true }, db) := by
  have hcond : ¬ (0 < registration_username.length ∧ 0 < registration_password.length) := by
    rcases h with h | h <;> simp [h]
  simp only [registerButtonClicked, if_neg hcond]

theorem registerButtonClicked_empty_witness :
    (([97, 108] : CStr) = [] ∨ ([] : CStr) = []) ∧
    registerButtonClicked toyDigest [97, 108] [] ⟨"", Color.RED, true, false⟩ dbAl
      = ({ (⟨"", Color.RED, true, false⟩ : AuthUi) with
            popupMessage := "Please fill in all fields!", popupColor := Color.RED,
            showPopup := true }, dbAl) :=
  ⟨by decide, registerButtonClicked_empty toyDigest [97, 108] [] ⟨"", Color.RED, true, false⟩ dbAl
    (by decide)⟩

/-! ## The representation of the task table

Rows are listed in ascending rowid order. The three mutators keep that order, which is why
`AddTask` may append its row: the rowid it is given is above every rowid in the table. -/

theorem lt_nextRowid (ids : List Int) (h : ids.Pairwise (· < ·)) : ∀ k ∈ ids, k < nextRowid ids := by
  intro k hk
  rcases List.eq_nil_or_concat ids with rfl | ⟨l, a, rfl⟩
  · simp at hk
  · rw [List.concat_eq_append] at h hk ⊢
    have hlast : nextRowid (l ++ [a]) = a + 1 := by simp [nextRowid]
    rw [hlast]
    rcases List.mem_append.1 hk with hl | ha
    · have := (List.pairwise_append.1 h).2.2 k hl a (List.mem_singleton_self a)
      omega
    · have : k = a := by simpa using ha
      omega

theorem IdsAscending_AddTask (username title : CStr) (db : Db) (h : IdsAscending db) :
    IdsAscending (AddTask username title db) := by
  unfold IdsAscending at h ⊢
  simp only [AddTask, stepInsertTask, List.map_append, List.map_cons, List.map_nil]
  refine List.pairwise_append.2 ⟨h, List.pairwise_singleton _ _, ?_⟩
  intro a ha b hb
  have hb2 : b = nextRowid (db.tasks.map (·.id)) := by simpa using hb
  rw [hb2]
  exact lt_nextRowid _ h a ha

theorem IdsAscending_MarkTaskComplete (taskId : Int) (db : Db) (h : IdsAscending db) :
    IdsAscending (MarkTaskComplete taskId db) := by
  unfold IdsAscending at h ⊢
  have hmap : (MarkTaskComplete taskId db).tasks.map (·.id) = db.tasks.map (·.id) := by
    simp only [MarkTaskComplete, stepUpdateCompleted, List.map_map]
    apply List.map_congr_left
    intro r _
    by_cases hr : r.id = taskId <;> simp [hr]
  rw [hmap]
  exact h

theorem IdsAscending_DeleteTask (taskId : Int) (db : Db) (h : IdsAscending db) :
    IdsAscending (DeleteTask taskId db) := by
  unfold IdsAscending at h ⊢
  simp only [DeleteTask, stepDeleteTask]
  exact h.sublist ((List.filter_sublist _).map _)

/-- The guard against empty fields is in the button handler alone: `RegisterUser` itself
registers the empty username with the empty password. -/
theorem RegisterUser_no_guard (SHA256 : CStr → Digest) :
    (RegisterUser SHA256 [] [] emptyDb).1 = true := by
  rw [RegisterUser_eq, stepInsertUser_absent [] _ emptyDb (by simp [userPresent, emptyDb])]
  simp

/-! ## Sequences of RegisterUser and LoginUser calls -/

/-- `RegisterUser` leaves the database as it was when the username is present and appends
one row with that username otherwise. -/
theorem RegisterUser_users (SHA256 : CStr → Digest) (username password : CStr) (db : Db) :
    (userPresent username db ∧ (RegisterUser SHA256 username password db).2 = db) ∨
    (¬ userPresent username db ∧ ∃ row : UserRow, row.username = username ∧
      (RegisterUser SHA256 username password db).2 = { db with users := db.users ++ [row] }) := by
  by_cases h : userPresent username db
  · left
    refine ⟨h, ?_⟩
    rw [RegisterUser_eq, stepInsertUser_present username _ db h]
  · right
    refine ⟨h, ⟨nextRowid (db.users.map (·.id)), username, hashString SHA256 password⟩, rfl, ?_⟩
    rw [RegisterUser_eq, stepInsertUser_absent username _ db h]

theorem AuthOp_apply_users (SHA256 : CStr → Digest) (db : Db) (op : AuthOp) :
    (AuthOp.apply SHA256 db op = db) ∨
    (∃ row : UserRow, ¬ userPresent row.username db ∧
      AuthOp.apply SHA256 db op = { db with users := db.users ++ [row] }) := by
  cases op with
  | register u p =>
    rcases RegisterUser_users SHA256 u p db with ⟨_, h⟩ | ⟨hn, row, hrow, h⟩
    · exact Or.inl h
    · exact Or.inr ⟨row, by rw [hrow]; exact hn, h⟩
  | login u p =>
    left
    simp only [AuthOp.apply, LoginUser_eq]

theorem runAuth_append (SHA256 : CStr → Digest) (ops more : List AuthOp) (db : Db) :
    runAuth SHA256 (ops ++ more) db = runAuth SHA256 more (runAuth SHA256 ops db) := by
  simp [runAuth, List.foldl_append]

theorem runAuth_users_grow (SHA256 : CStr → Digest) (more : List AuthOp) (db : Db) :
    db.users <+: (runAuth SHA256 more db).users ∧ (runAuth SHA256 more db).tasks = db.tasks := by
  induction more generalizing db with
  | nil => exact ⟨⟨[], List.append_nil _⟩, rfl⟩
  | cons op rest ih =>
    have hstep : db.users <+: (AuthOp.apply SHA256 db op).users ∧
        (AuthOp.apply SHA256 db op).tasks = db.tasks := by
      rcases AuthOp_apply_users SHA256 db op with h | ⟨row, _, h⟩
      · rw [h]; exact ⟨⟨[], List.append_nil _⟩, rfl⟩
      · rw [h]; exact ⟨⟨[row], rfl⟩, rfl⟩
    obtain ⟨ih1, ih2⟩ := ih (AuthOp.apply SHA256 db op)
    exact ⟨hstep.1.trans ih1, ih2.trans hstep.2⟩

theorem runAuth_unique (SHA256 : CStr → Digest) (ops : List AuthOp) (db : Db)
    (h : ∀ u : CStr, (db.users.filter (fun r => decide (r.username = u))).length ≤ 1) :
    ∀ u : CStr,
      ((runAuth SHA256 ops db).users.filter (fun r => decide (r.username = u))).length ≤ 1 := by
  induction ops generalizing db with
  | nil => exact h
  | cons op rest ih =>
    apply ih (AuthOp.apply SHA256 db op)
    rcases AuthOp_apply_users SHA256 db op with hs | ⟨row, hn, hs⟩
    · rw [hs]; exact h
    · rw [hs]
      intro u
      simp only [List.filter_append, List.length_append]
      by_cases hu : row.username = u
      · have hnone : db.users.filter (fun r => decide (r.username = u)) = [] := by
          rw [List.filter_eq_nil_iff]
          intro r hr hru
          exact hn ⟨r, hr, by rw [hu]; simpa using hru⟩
        rw [hnone]
        simp [hu]
      · have := h u
        simpa [hu] using this

/-- C11: starting from an empty `users` table, after every finite sequence of `RegisterUser`
and `LoginUser` calls each username is in at most one row of `users`; the rows present
then are still there, unchanged and in place, after any further calls; `LoginUser` returns
the database it was given; and `RegisterUser` leaves `users` as it was or appends one
row. -/
theorem users_unique (SHA256 : CStr → Digest) (ops : List AuthOp) (db0 : Db)
    (h0 : db0.users = []) :
    (∀ u : CStr,
      ((runAuth SHA256 ops db0).users.filter (fun r => decide (r.username = u))).length ≤ 1) ∧
    (∀ more : List AuthOp,
      (runAuth SHA256 ops db0).users <+: (runAuth SHA256 (ops ++ more) db0).users) ∧
    (∀ u p : CStr,
      (LoginUser SHA256 u p (runAuth SHA256 ops db0)).2 = runAuth SHA256 ops db0) ∧
    (∀ u p : CStr, ∃ rows : List UserRow, rows.length ≤ 1 ∧
      (RegisterUser SHA256 u p (runAuth SHA256 ops db0)).2.users
        = (runAuth SHA256 ops db0).users ++ rows) := by
  refine ⟨runAuth_unique SHA256 ops db0 (by intro u; simp [h0]), ?_, ?_, ?_⟩
  · intro more
    rw [runAuth_append]
    exact (runAuth_users_grow SHA256 more _).1
  · intro u p
    rw [LoginUser_eq]
  · intro u p
    rcases RegisterUser_users SHA256 u p (runAuth SHA256 ops db0) with ⟨_, h⟩ | ⟨_, row, _, h⟩
    · exact ⟨[], by simp, by rw [h, List.append_nil]⟩
    · exact ⟨[row], by simp, by rw [h]⟩

theorem users_unique_witness :
    dbTasks.users = [] ∧
    ((∀ u : CStr, ((runAuth toyDigest sampleAuthOps dbTasks).users.filter
        (fun r => decide (r.username = u))).length ≤ 1) ∧
    (∀ more : List AuthOp, (runAuth toyDigest sampleAuthOps dbTasks).users
        <+: (runAuth toyDigest (sampleAuthOps ++ more) dbTasks).users) ∧
    (∀ u p : CStr, (LoginUser toyDigest u p (runAuth toyDigest sampleAuthOps dbTasks)).2
        = runAuth toyDigest sampleAuthOps dbTasks) ∧
    (∀ u p : CStr, ∃ rows : List UserRow, rows.length ≤ 1 ∧
      (RegisterUser toyDigest u p (runAuth toyDigest sampleAuthOps dbTasks)).2.users
        = (runAuth toyDigest sampleAuthOps dbTasks).users ++ rows)) :=
  ⟨rfl, users_unique toyDigest sampleAuthOps dbTasks rfl⟩

/-! ## HandleTaskInput -/

set_option maxRecDepth 1000000 in
/-- C13, the code at a buffer of 254 characters: the buffer holds a NUL-terminated string
of length 254 with zero bytes up to its end, the field is focused and `a` is typed.
`HandleTaskInput` with `maxLength = 256` stores `a` at offset 254 and then NUL at offset
`strlen + 1 = 256`, one past the last byte of the buffer, where the memory held 1. -/
theorem HandleTaskInput_overrun :
    strlen (bufOf 254) = 254 ∧ bufOf 254 254 = 0 ∧ bufOf 254 255 = 0 ∧ bufOf 254 256 = 1 ∧
    HandleTaskInput typeA true (bufOf 254) MAX_INPUT_LEN 254 = 97 ∧
    strlen (HandleTaskInput typeA true (bufOf 254) MAX_INPUT_LEN) = 255 ∧
    HandleTaskInput typeA true (bufOf 254) MAX_INPUT_LEN 256 = 0 := by
  decide

/-! ## Text fields of main.c -/

set_option maxRecDepth 1000000 in
/-- C14, the code at two inputs. A focused field that is full (255 characters) is not
changed by a frame in which backspace is pressed: its length stays 255. A focused field
of 254 characters in a frame in which `a` and `b` are typed gets `a` at offset 254, `b` at
offset 255 and NUL at offset 256, one past the last byte of the buffer, where the memory
held 1: the string is then 256 characters long. -/
theorem fieldInput_defects :
    strlen (bufOf 255) = 255 ∧
    strlen (fieldInput pressBackspace true (bufOf 255)) = 255 ∧
    strlen (bufOf 254) = 254 ∧ bufOf 254 256 = 1 ∧
    fieldInput typeAB true (bufOf 254) 254 = 97 ∧
    fieldInput typeAB true (bufOf 254) 255 = 98 ∧
    fieldInput typeAB true (bufOf 254) 256 = 0 ∧
    strlen (fieldInput typeAB true (bufOf 254)) = 256 := by
  decide

/-! ## The dashboard -/

set_option maxRecDepth 1000000 in
/-- C12, the code at a click on `Del`: the dashboard of `testuser` shows the two tasks of
`dbTwo`, as `FetchTasks` returns them, and the `Del` button of the first row is clicked.
After the frame the database holds task 2 alone and `FetchTasks` returns that one task,
but the cached count of `DrawDashboard` is still 2 and its cache shows task 2 twice. -/
theorem DrawDashboard_stale_count :
    fetched testuser zeroTasks dbTwo = some dashTwo.shown ∧
    (DrawDashboard clickDeleteFirst testuser dashTwo dbTwo).map
        (fun r => (r.1.taskCount, r.1.shown, r.2.tasks, fetched testuser r.1.tasks r.2))
      = some (2, [⟨2, [117], false⟩, ⟨2, [117], false⟩], [⟨2, testuser, [117], 0⟩],
          some [⟨2, [117], false⟩]) := by
  decide

/-! ## Buffers that hold a terminated string -/

theorem cstring_eq (m : Mem) (size n : Nat) (hn : n < size) (hnz : ∀ i, i < n → m i ≠ 0)
    (hz : m n = 0) : cstring m size = (List.range n).map m := by
  obtain ⟨k, rfl⟩ : ∃ k, size = n + (k + 1) := ⟨size - n - 1, by omega⟩
  have hpos : ∀ a ∈ (List.range n).map m, (fun c => decide (c ≠ 0)) a = true := by
    intro a ha
    obtain ⟨j, hj, rfl⟩ := List.mem_map.1 ha
    simpa using hnz j (List.mem_range.1 hj)
  unfold cstring
  rw [List.range_add, List.map_append, List.takeWhile_append_of_pos hpos,
    List.range_succ_eq_map]
  simp [hz]

theorem strlen_eq (m : Mem) (n : Nat) (hn : n < STRLEN_SCAN) (hnz : ∀ i, i < n → m i ≠ 0)
    (hz : m n = 0) : strlen m = n := by
  unfold strlen
  rw [cstring_eq m STRLEN_SCAN n hn hnz hz]
  simp

theorem strlen_of_zeroTerminated {m : Mem} {size n : Nat} (h : ZeroTerminated m size n)
    (hsize : size ≤ STRLEN_SCAN) : strlen m = n :=
  strlen_eq m n (Nat.lt_of_lt_of_le h.1 hsize) h.2.1 (h.2.2 n (Nat.le_refl _) h.1)

/-! ## HandleTaskInput: where it stays in the buffer -/

theorem HandleTaskInput_unfocused (f : Frame) (input : Mem) (maxLength : Int) :
    HandleTaskInput f false input maxLength = input := by
  simp [HandleTaskInput]

/-- Backspace in the focused field with a non-empty string: one store, NUL over the last
character. -/
theorem HandleTaskInput_backspace (f : Frame) (input : Mem) (n : Nat)
    (h : ZeroTerminated input MAX_INPUT_LEN n) (hn : 0 < n) (hb : f.backspacePressed = true) :
    HandleTaskInput f true input MAX_INPUT_LEN = poke input (n - 1) 0 := by
  have hlen : strlen input = n := strlen_of_zeroTerminated h (by decide)
  simp [HandleTaskInput, hb, hlen, hn]

/-- A typed character below 128 in the focused field with fewer than 255 characters: two
stores, the character at offset `n` and NUL at offset `n + 2`. -/
theorem HandleTaskInput_key (f : Frame) (input : Mem) (n : Nat) (key : Int)
    (h : ZeroTerminated input MAX_INPUT_LEN n) (hb : f.backspacePressed = false ∨ n = 0)
    (hkey : (GetCharPressed f.chars).1 = key) (h0 : 0 < key) (h128 : key < 128)
    (hn : n < MAX_INPUT_LEN - 1) :
    HandleTaskInput f true input MAX_INPUT_LEN = poke (poke input n key.toNat) (n + 2) 0 := by
  have hlen : strlen input = n := strlen_of_zeroTerminated h (by decide)
  have hk : key.toNat ≠ 0 := by omega
  have h256 : MAX_INPUT_LEN = 256 := rfl
  have hlen1 : strlen (poke input n key.toNat) = n + 1 := by
    apply strlen_eq
    · have : STRLEN_SCAN = 512 := rfl
      omega
    · intro i hi
      by_cases hin : i = n
      · simp [poke, hin, hk]
      · simp only [poke, hin, if_false]
        exact h.2.1 i (by omega)
    · have hne : ¬ (n + 1 = n) := by omega
      simp only [poke, hne, if_false]
      exact h.2.2 (n + 1) (by omega) (by omega)
  have hcond1 : ¬ (f.backspacePressed = true ∧ n > 0) := by
    rintro ⟨h1, h2⟩
    rcases hb with hb | hb
    · rw [hb] at h1; exact Bool.noConfusion h1
    · omega
  have hcond2 : (n : Int) < ((MAX_INPUT_LEN : Nat) - 1 : Int) % 2 ^ 64 := by
    have : ((MAX_INPUT_LEN : Nat) : Int) = 256 := rfl
    omega
  simp only [HandleTaskInput, true_and, hkey, hlen, hlen1, h0, h128, gt_iff_lt]
  rw [if_neg hcond1, if_pos hcond2, if_pos trivial]

/-- What holds of `HandleTaskInput` on a buffer of 256 bytes with a string of `n` characters,
zero behind it: without focus nothing is stored; backspace on a non-empty string removes
the last character and stores inside the buffer; a typed character below 128 is appended
when `n < 255`, and the two stores stay inside the buffer when `n ≤ 253`; when `n = 254`
the second store is at offset 256. -/
theorem HandleTaskInput_stores (f : Frame) (input : Mem) (n : Nat) (key : Int)
    (h : ZeroTerminated input MAX_INPUT_LEN n)
    (hkey : (GetCharPressed f.chars).1 = key) (h0 : 0 < key) (h128 : key < 128) :
    HandleTaskInput f false input MAX_INPUT_LEN = input ∧
    (0 < n → f.backspacePressed = true →
      ZeroTerminated (HandleTaskInput f true input MAX_INPUT_LEN) MAX_INPUT_LEN (n - 1) ∧
      (∀ i, i < n - 1 → HandleTaskInput f true input MAX_INPUT_LEN i = input i) ∧
      ∀ j, MAX_INPUT_LEN ≤ j → HandleTaskInput f true input MAX_INPUT_LEN j = input j) ∧
    ((f.backspacePressed = false ∨ n = 0) → n < MAX_INPUT_LEN - 1 →
      ZeroTerminated (HandleTaskInput f true input MAX_INPUT_LEN) MAX_INPUT_LEN (n + 1) ∧
      HandleTaskInput f true input MAX_INPUT_LEN n = key.toNat ∧
      (∀ i, i < n → HandleTaskInput f true input MAX_INPUT_LEN i = input i) ∧
      (n + 2 < MAX_INPUT_LEN →
        ∀ j, MAX_INPUT_LEN ≤ j → HandleTaskInput f true input MAX_INPUT_LEN j = input j) ∧
      (n + 2 = MAX_INPUT_LEN → HandleTaskInput f true input MAX_INPUT_LEN MAX_INPUT_LEN = 0)) := by
  have hk : key.toNat ≠ 0 := by omega
  obtain ⟨hlt, hnz, hzero⟩ := h
  refine ⟨HandleTaskInput_unfocused f input _, ?_, ?_⟩
  · intro hn hb
    rw [HandleTaskInput_backspace f input n ⟨hlt, hnz, hzero⟩ hn hb]
    refine ⟨⟨by omega, ?_, ?_⟩, ?_, ?_⟩
    · intro i hi
      have hne : ¬ (i = n - 1) := by omega
      simp only [poke, hne, if_false]
      exact hnz i (by omega)
    · intro i hi1 hi2
      by_cases hin : i = n - 1
      · simp [poke, hin]
      · simp only [poke, hin, if_false]
        exact hzero i (by omega) hi2
    · intro i hi
      have hne : ¬ (i = n - 1) := by omega
      simp only [poke, hne, if_false]
    · intro j hj
      have hne : ¬ (j = n - 1) := by omega
      simp only [poke, hne, if_false]
  · intro hb hn
    rw [HandleTaskInput_key f input n key ⟨hlt, hnz, hzero⟩ hb hkey h0 h128 hn]
    refine ⟨⟨by omega, ?_, ?_⟩, ?_, ?_, ?_, ?_⟩
    · intro i hi
      have hne : ¬ (i = n + 2) := by omega
      by_cases hin : i = n
      · simp [poke, hin, hk]
      · simp only [poke, hne, hin, if_false]
        exact hnz i (by omega)
    · intro i hi1 hi2
      by_cases hi : i = n + 2
      · simp [poke, hi]
      · have hne : ¬ (i = n) := by omega
        simp only [poke, hi, hne, if_false]
        exact hzero i (by omega) hi2
    · simp [poke]
    · intro i hi
      have hne1 : ¬ (i = n + 2) := by omega
      have hne2 : ¬ (i = n) := by omega
      simp only [poke, hne1, hne2, if_false]
    · intro hin j hj
      have hne1 : ¬ (j = n + 2) := by omega
      have hne2 : ¬ (j = n) := by omega
      simp only [poke, hne1, hne2, if_false]
    · intro hin
      simp [poke, hin]

/-! ## Text fields of main.c: where they stay in the buffer -/

/-- Once the field is full the whole block is skipped, backspace included. -/
theorem fieldInput_blocked (f : Frame) (focused : Bool) (field : Mem)
    (h : MAX_INPUT_LEN - 1 ≤ strlen field) : fieldInput f focused field = field := by
  have hc : ¬ (focused = true ∧ strlen field < MAX_INPUT_LEN - 1) := by
    rintro ⟨_, h2⟩
    omega
  simp only [fieldInput, if_neg hc]

theorem poke_zeroTerminated (field : Mem) (n c : Nat) (h : ZeroTerminated field MAX_INPUT_LEN n)
    (hc : c ≠ 0) (hn : n + 1 < MAX_INPUT_LEN) :
    ZeroTerminated (poke (poke field n c) (n + 1) 0) MAX_INPUT_LEN (n + 1) ∧
    ∀ j, MAX_INPUT_LEN ≤ j → poke (poke field n c) (n + 1) 0 j = field j := by
  obtain ⟨_, hnz, hzero⟩ := h
  refine ⟨⟨hn, ?_, ?_⟩, ?_⟩
  · intro i hi
    have hne : ¬ (i = n + 1) := by omega
    by_cases hin : i = n
    · simp [poke, hin, hc]
    · simp only [poke, hne, hin, if_false]
      exact hnz i (by omega)
  · intro i hi1 hi2
    by_cases hi : i = n + 1
    · simp [poke, hi]
    · have hne : ¬ (i = n) := by omega
      simp only [poke, hi, hne, if_false]
      exact hzero i (by omega) hi2
  · intro j hj
    have hne1 : ¬ (j = n + 1) := by omega
    have hne2 : ¬ (j = n) := by omega
    simp only [poke, hne1, hne2, if_false]

/-- The character loop stays inside the buffer when the queued characters all fit. -/
theorem fieldInput_loop_fits (queue : List Int) (field : Mem) (n : Nat)
    (h : ZeroTerminated field MAX_INPUT_LEN n) (hq : n + queue.length < MAX_INPUT_LEN) :
    ∃ n2, n ≤ n2 ∧ n2 ≤ n + queue.length ∧
      ZeroTerminated (fieldInput.loop queue field) MAX_INPUT_LEN n2 ∧
      ∀ j, MAX_INPUT_LEN ≤ j → fieldInput.loop queue field j = field j := by
  induction queue generalizing field n with
  | nil => exact ⟨n, Nat.le_refl _, Nat.le_refl _, h, fun _ _ => rfl⟩
  | cons key rest ih =>
    simp only [List.length_cons] at hq
    by_cases hpos : key > 0
    · by_cases hpr : key ≥ 32 ∧ key ≤ 126
      · have hlen : strlen field = n := strlen_of_zeroTerminated h (by decide)
        have hk : key.toNat ≠ 0 := by omega
        obtain ⟨hz, hframe⟩ := poke_zeroTerminated field n key.toNat h hk (by omega)
        obtain ⟨n2, h1, h2, h3, h4⟩ := ih (poke (poke field n key.toNat) (n + 1) 0) (n + 1) hz
          (by omega)
        refine ⟨n2, by omega, by simp only [List.length_cons]; omega, ?_, ?_⟩
        · simpa only [fieldInput.loop, if_pos hpos, if_pos hpr, hlen] using h3
        · intro j hj
          simp only [fieldInput.loop, if_pos hpos, if_pos hpr, hlen]
          rw [h4 j hj, hframe j hj]
      · obtain ⟨n2, h1, h2, h3, h4⟩ := ih field n h (by omega)
        refine ⟨n2, h1, by simp only [List.length_cons]; omega, ?_, ?_⟩
        · simpa only [fieldInput.loop, if_pos hpos, if_neg hpr] using h3
        · intro j hj
          simp only [fieldInput.loop, if_pos hpos, if_neg hpr]
          exact h4 j hj
    · refine ⟨n, Nat.le_refl _, by omega, ?_, ?_⟩
      · simpa only [fieldInput.loop, if_neg hpos] using h
      · intro j _
        simp only [fieldInput.loop, if_neg hpos]

/-- A frame of input handling stays inside the buffer, and leaves a terminated string of
at most 255 characters, when at most one character is queued or the queued characters
all fit. -/
theorem fieldInput_fits (f : Frame) (focused : Bool) (field : Mem) (n : Nat)
    (h : ZeroTerminated field MAX_INPUT_LEN n)
    (hq : f.chars.length ≤ 1 ∨ n + f.chars.length < MAX_INPUT_LEN) :
    ∃ n2, ZeroTerminated (fieldInput f focused field) MAX_INPUT_LEN n2 ∧
      ∀ j, MAX_INPUT_LEN ≤ j → fieldInput f focused field j = field j := by
  have hlen : strlen field = n := strlen_of_zeroTerminated h (by decide)
  by_cases hc : focused = true ∧ strlen field < MAX_INPUT_LEN - 1
  · have hfit : n + f.chars.length < MAX_INPUT_LEN := by
      have := hc.2
      omega
    obtain ⟨n2, _, _, hz, hframe⟩ := fieldInput_loop_fits f.chars field n h hfit
    have hlen2 : strlen (fieldInput.loop f.chars field) = n2 :=
      strlen_of_zeroTerminated hz (by decide)
    by_cases hb : f.backspacePressed = true ∧ strlen (fieldInput.loop f.chars field) > 0
    · have hn2 : 0 < n2 := by have := hb.2; omega
      have hout : fieldInput f focused field
          = poke (fieldInput.loop f.chars field) (n2 - 1) 0 := by
        unfold fieldInput
        rw [if_pos hc]
        show (if f.backspacePressed = true ∧ strlen (fieldInput.loop f.chars field) > 0 then _
          else _) = _
        rw [if_pos hb, hlen2]
      rw [hout]
      obtain ⟨hlt, hnz, hzero⟩ := hz
      refine ⟨n2 - 1, ⟨by omega, ?_, ?_⟩, ?_⟩
      · intro i hi
        have hne : ¬ (i = n2 - 1) := by omega
        simp only [poke, hne, if_false]
        exact hnz i (by omega)
      · intro i hi1 hi2
        by_cases hin : i = n2 - 1
        · simp [poke, hin]
        · simp only [poke, hin, if_false]
          exact hzero i (by omega) hi2
      · intro j hj
        have hne : ¬ (j = n2 - 1) := by omega
        simp only [poke, hne, if_false]
        exact hframe j hj
    · have hout : fieldInput f focused field = fieldInput.loop f.chars field := by
        unfold fieldInput
        rw [if_pos hc]
        show (if f.backspacePressed = true ∧ strlen (fieldInput.loop f.chars field) > 0 then _
          else _) = _
        rw [if_neg hb]
      rw [hout]
      exact ⟨n2, hz, hframe⟩
  · refine ⟨n, ?_, ?_⟩
    · simpa only [fieldInput, if_neg hc] using h
    · intro j _
      simp only [fieldInput, if_neg hc]

/-! ## The dashboard: the click on Add Task -/

/-- With the mouse above the task rows no row button is hit and `DrawTasks` changes
nothing. -/
theorem DrawTasks_loop_idle (f : Frame) (hy : f.mouseY ≤ 150) (fuel i : Nat) (tasks : List Task)
    (taskCount : Nat) (db : Db) :
    DrawTasks.loop f fuel i tasks taskCount db = some (tasks, taskCount, db) := by
  induction fuel generalizing i with
  | zero => rfl
  | succ fuel ih =>
    have hc : ¬ (f.mouseX > 600 ∧ f.mouseX < 660 ∧
        f.mouseY > 150 + (i : Int) * 50 ∧ f.mouseY < 190 + (i : Int) * 50) := by
      rintro ⟨_, _, h3, _⟩
      omega
    have hd : ¬ (f.mouseX > 670 ∧ f.mouseX < 730 ∧
        f.mouseY > 150 + (i : Int) * 50 ∧ f.mouseY < 190 + (i : Int) * 50) := by
      rintro ⟨_, _, h3, _⟩
      omega
    by_cases hi : i < taskCount
    · simp only [DrawTasks.loop, if_pos hi, hc, hd, false_and, if_false, Option.pure_def,
        Option.bind_eq_bind, Option.some_bind]
      exact ih (i + 1)
    · simp only [DrawTasks.loop, if_neg hi]

/-- A click on `Add Task` with a non-empty title refreshes the cache: after the frame the
database is the one `AddTask` leaves, and the cached count and array of `DrawDashboard` are
what `FetchTasks` returns on it for the user of the dashboard. -/
theorem DrawDashboard_add_refreshes (f : Frame) (username : CStr) (s : DashboardState) (db : Db)
    (hp : f.mousePressed = true) (hx : f.mouseX > 440 ∧ f.mouseX < 540)
    (hy : f.mouseY > 80 ∧ f.mouseY < 120) (htitle : 0 < strlen s.newTaskTitle)
    (hfit : strlen s.newTaskTitle < MAX_INPUT_LEN) (hdb : TitlesFit db)
    (hlen : MAX_TASKS ≤ s.tasks.length) :
    ∃ s2 : DashboardState,
      DrawDashboard f username s db
        = some (s2, AddTask username (cstring s.newTaskTitle STRLEN_SCAN) db) ∧
      FetchTasks username s.tasks (AddTask username (cstring s.newTaskTitle STRLEN_SCAN) db)
        = some (s2.taskCount, s2.tasks) := by
  have hdb1 : TitlesFit (AddTask username (cstring s.newTaskTitle STRLEN_SCAN) db) :=
    TitlesFit_AddTask username _ db hdb hfit
  have hfetch := FetchTasks_eq username s.tasks _ hdb1 hlen
  have hsel := selectTasks_AddTask username (cstring s.newTaskTitle STRLEN_SCAN) username db
  rw [if_pos rfl] at hsel
  have hcount : min MAX_TASKS (selectTasks username
      (AddTask username (cstring s.newTaskTitle STRLEN_SCAN) db)).length ≠ 0 := by
    rw [hsel, List.length_append, List.length_singleton]
    have h100 : MAX_TASKS = 100 := rfl
    omega
  have hadd : f.mouseX > 440 ∧ f.mouseX < 540 ∧ f.mouseY > 80 ∧ f.mouseY < 120 :=
    ⟨hx.1, hx.2, hy.1, hy.2⟩
  have hidle : f.mouseY ≤ 150 := by omega
  refine ⟨⟨((selectTasks username (AddTask username (cstring s.newTaskTitle STRLEN_SCAN)
        db)).take MAX_TASKS).map toTask ++ s.tasks.drop (min MAX_TASKS (selectTasks username
        (AddTask username (cstring s.newTaskTitle STRLEN_SCAN) db)).length),
      min MAX_TASKS (selectTasks username
        (AddTask username (cstring s.newTaskTitle STRLEN_SCAN) db)).length,
      HandleTaskInput f
        (decide (f.mouseX > 20 ∧ f.mouseX < 420 ∧ f.mouseY > 80 ∧ f.mouseY < 120))
        (memsetTitle s.newTaskTitle) MAX_INPUT_LEN,
      decide (f.mouseX > 20 ∧ f.mouseX < 420 ∧ f.mouseY > 80 ∧ f.mouseY < 120)⟩, ?_, hfetch⟩
  simp only [DrawDashboard, hp, if_true, hadd, htitle, gt_iff_lt, and_self, hfetch,
    Option.pure_def, Option.bind_eq_bind, Option.some_bind, hcount, if_false, DrawTasks,
    DrawTasks_loop_idle f hidle, Option.map_some']

set_option maxRecDepth 1000000 in
/-- The refresh in `DrawTasks` fetches for `testuser`, whatever username `DrawDashboard` was
given: the dashboard of `al` shows the one task of `al`, and `Done` on it is clicked. After
the frame task 1 is completed in the database and `FetchTasks` for `al` returns it so, but
the cache shows task 2, which `testuser` owns. The `main` of app.c passes `testuser` only,
so this is about `DrawDashboard` as a function, not about a run of the program. -/
theorem DrawDashboard_other_user :
    fetched [97, 108] zeroTasks dbMixed = some dashAl.shown ∧
    (DrawDashboard clickDoneFirst [97, 108] dashAl dbMixed).map
        (fun r => (r.1.taskCount, r.1.shown, fetched [97, 108] r.1.tasks r.2))
      = some (1, [⟨2, [117], false⟩], some [⟨1, [116], true⟩]) := by
  decide

end TaskManager
